import Mathlib

/-!
# Soft-body tetrahedron: the XPBD step of `soft_body.cpp`

A shallow embedding of the simulation code of `src/soft_body.cpp`: the
particle initialiser, `addConstraint`, the rest volume, and the body of the
render loop from "calculate position by velocity" to the velocity update.
The rendering code around it is not modelled.

* Arithmetic is exact: `float` is read as an arbitrary linearly ordered field
  `K`, and `glm::length` takes the square-root function as a parameter `sqrt`.
  The definitions are executable (for instance over `ℚ`); a theorem that needs
  the real square root assumes `IsSqrt sqrt`, which `Real.sqrt` satisfies.
* A division whose denominator is computed at run time goes through
  `checkedDiv` or `checkedVecDiv`, which report `Fault.divisionByZero` on a zero
  denominator. Division by the literal `6.0f` is the field division.
* The guard threshold `epsilon` is the exact value of the binary32 literal
  `1e-6f`, so that the guards of the model fire exactly where those of the
  source do.
* `std::vector<Particle>` is a list and the `int` indices of a constraint are
  natural numbers; an index outside the vector reports `Fault.indexOutOfRange`.
* The locals `gravity`, `constraints`, `restVolume` and `dt` of `main` are
  parameters of `step`. The two compliances are parameters of the two solver
  blocks and `solverIteration` passes the values of the source.
-/

namespace SoftBody

/-! ## Vectors (`glm::vec3`) -/

/-- Three components of a `glm::vec3`. -/
@[ext]
structure Vec3 (K : Type) where
  x : K
  y : K
  z : K
deriving DecidableEq

/-- Faults of the step: undefined behaviour of the source made explicit. -/
inductive Fault where
  | indexOutOfRange
  | divisionByZero
deriving DecidableEq

section Defs

variable {K : Type} [LinearOrderedField K]

namespace Vec3

/-- Componentwise sum, `a + b`. -/
def add (a b : Vec3 K) : Vec3 K := ⟨a.x + b.x, a.y + b.y, a.z + b.z⟩

/-- Componentwise difference, `a - b`. -/
def sub (a b : Vec3 K) : Vec3 K := ⟨a.x - b.x, a.y - b.y, a.z - b.z⟩

/-- Scalar times vector, `k * a`. -/
def smul (k : K) (a : Vec3 K) : Vec3 K := ⟨k * a.x, k * a.y, k * a.z⟩

/-- Vector times scalar, `a * k`. -/
def scale (a : Vec3 K) (k : K) : Vec3 K := ⟨a.x * k, a.y * k, a.z * k⟩

/-- Vector over scalar, `a / k`, componentwise. -/
def sdiv (a : Vec3 K) (k : K) : Vec3 K := ⟨a.x / k, a.y / k, a.z / k⟩

/-- The vector `glm::vec3(0.0f)`. -/
def zero : Vec3 K := ⟨0, 0, 0⟩

/-- Inner product, `glm::dot`. -/
def dot (a b : Vec3 K) : K := a.x * b.x + a.y * b.y + a.z * b.z

/-- Vector product, `glm::cross`. -/
def cross (a b : Vec3 K) : Vec3 K :=
  ⟨a.y * b.z - b.y * a.z, a.z * b.x - b.z * a.x, a.x * b.y - b.x * a.y⟩

/-- Euclidean norm, `glm::length`: the square root of `dot a a`. -/
def length (sqrt : K → K) (a : Vec3 K) : K := sqrt (dot a a)

end Vec3

/-! ## Data model -/

/-- The `Particle` struct. -/
structure Particle (K : Type) where
  position : Vec3 K
  previousPosition : Vec3 K
  velocity : Vec3 K
  invMass : K
deriving DecidableEq

/-- The `DistanceConstraint` struct. -/
structure DistanceConstraint (K : Type) where
  p0 : Nat
  p1 : Nat
  restLength : K
deriving DecidableEq

/-! ## Constants of `main` -/

/-- The guard threshold `1e-6f`: the value of the binary32 literal, `8796093 / 2 ^ 43`, a
little below one millionth. -/
def epsilon : K := 8796093 / 8796093022208

/-- The ground height, `float groundY = -3.5f`. -/
def groundY : K := -(7 / 2)

/-- The distance compliance, `float complianceDist = 0.03f`. -/
def complianceDist : K := 3 / 100

/-- The volume compliance, `float complianceVol = 0.9f`. -/
def complianceVol : K := 9 / 10

/-- The iteration count, `int solverIterations = 1`. -/
def solverIterations : Nat := 1

/-- The gravity vector, `glm::vec3 gravity(0.0f, -1.0f, 0.0f)`. -/
def gravity : Vec3 K := ⟨0, -1, 0⟩

/-! ## Checked division -/

/-- Scalar division `a / b`; a zero denominator is a fault. -/
def checkedDiv (a b : K) : Except Fault K :=
  if b = 0 then .error .divisionByZero else .ok (a / b)

/-- Vector over scalar `a / b`; a zero denominator is a fault. -/
def checkedVecDiv (a : Vec3 K) (b : K) : Except Fault (Vec3 K) :=
  if b = 0 then .error .divisionByZero else .ok (Vec3.sdiv a b)

/-! ## Scene setup (lines 199-229) -/

/-- The `particles` initialiser: position, previousPosition, velocity, invMass. -/
def initialParticles : List (Particle K) :=
  [ ⟨⟨0, -(1 / 2), 0⟩, ⟨0, 1 / 2, 0⟩, Vec3.zero, 1⟩,
    ⟨⟨-(1 / 2), 1 / 2, 1 / 2⟩, ⟨-(1 / 2), -(1 / 2), 1 / 2⟩, Vec3.zero, 1⟩,
    ⟨⟨1 / 2, 1 / 2, 1 / 2⟩, ⟨1 / 2, -(1 / 2), 1 / 2⟩, Vec3.zero, 1⟩,
    ⟨⟨0, 1 / 2, -(1 / 2)⟩, ⟨0, -(1 / 2), -(1 / 2)⟩, Vec3.zero, 1⟩ ]

/-- The lambda `addConstraint(i, j)`: appends the edge with its current length. -/
def addConstraint (sqrt : K → K) (particles : List (Particle K))
    (constraints : List (DistanceConstraint K)) (i j : Nat) :
    Except Fault (List (DistanceConstraint K)) :=
  match particles[i]?, particles[j]? with
  | some pi, some pj =>
    .ok (constraints ++ [⟨i, j, Vec3.length sqrt (Vec3.sub pi.position pj.position)⟩])
  | _, _ => .error .indexOutOfRange

/-- The six `addConstraint` calls for the tetrahedron edges. -/
def initialConstraints (sqrt : K → K) : Except Fault (List (DistanceConstraint K)) := do
  let c ← addConstraint sqrt initialParticles [] 0 1
  let c ← addConstraint sqrt initialParticles c 0 2
  let c ← addConstraint sqrt initialParticles c 0 3
  let c ← addConstraint sqrt initialParticles c 1 2
  let c ← addConstraint sqrt initialParticles c 1 3
  addConstraint sqrt initialParticles c 2 3

/-- Scalar triple product `dot(p1 - p0, cross(p2 - p0, p3 - p0))`, six times the signed volume. -/
def tripleProduct (p0 p1 p2 p3 : Vec3 K) : K :=
  Vec3.dot (Vec3.sub p1 p0) (Vec3.cross (Vec3.sub p2 p0) (Vec3.sub p3 p0))

/-- The function `calculateVolume` (lines 61-63). -/
def calculateVolume (p0 p1 p2 p3 : Vec3 K) : K := tripleProduct p0 p1 p2 p3 / 6

/-- The `restVolume` of lines 225-227, from particles 0 to 3. -/
def restVolumeOf (particles : List (Particle K)) : Except Fault K :=
  match particles[0]?, particles[1]?, particles[2]?, particles[3]? with
  | some p0, some p1, some p2, some p3 =>
    .ok (Vec3.dot (Vec3.sub p1.position p0.position)
      (Vec3.cross (Vec3.sub p2.position p0.position) (Vec3.sub p3.position p0.position)) / 6)
  | _, _, _, _ => .error .indexOutOfRange

/-! ## The simulation step (lines 258-363) -/

/-- Body of the first loop: gravity, then the unconstrained position estimate. -/
def predictParticle (gravity : Vec3 K) (dt : K) (p : Particle K) : Particle K :=
  if p.invMass = 0 then p
  else
    let velocity := Vec3.add p.velocity (Vec3.scale gravity dt)
    { p with
      velocity := velocity
      previousPosition := p.position
      position := Vec3.add p.position (Vec3.scale velocity dt) }

/-- The loop "calculate position by velocity" (lines 258-265). -/
def predict (gravity : Vec3 K) (dt : K) (particles : List (Particle K)) : List (Particle K) :=
  particles.map (predictParticle gravity dt)

/-- Body of the ground loop: `if (p.position.y < groundY) p.position.y = groundY`. -/
def clampParticle (p : Particle K) : Particle K :=
  if p.position.y < groundY then { p with position := { p.position with y := groundY } }
  else p

/-- The loop "detect ground" (lines 269-277), over every particle. -/
def detectGround (particles : List (Particle K)) : List (Particle K) :=
  particles.map clampParticle

/-- The statement `particles[i].position += v` on the particle vector. -/
def addPosition : List (Particle K) → Nat → Vec3 K → List (Particle K)
  | [], _, _ => []
  | p :: ps, 0, v => { p with position := Vec3.add p.position v } :: ps
  | p :: ps, i + 1, v => p :: addPosition ps i v

/-- Body of the distance-constraint loop (lines 287-311) for one constraint `c`;
`continue` returns the particles unchanged. The local `complianceDist` is the parameter
`compliance`. The second update reads particle `c.p1` after the first one was written, as the
references `p0` and `p1` of the source do. -/
def solveDistance (sqrt : K → K) (compliance dt : K) (particles : List (Particle K))
    (c : DistanceConstraint K) : Except Fault (List (Particle K)) :=
  match particles[c.p0]?, particles[c.p1]? with
  | some p0, some p1 =>
    let delta := Vec3.sub p0.position p1.position
    let l := Vec3.length sqrt delta
    if l < epsilon then .ok particles
    else do
      let gradC1 ← checkedVecDiv (Vec3.sub p0.position p1.position)
        (Vec3.length sqrt (Vec3.sub p0.position p1.position))
      let gradC2 ← checkedVecDiv (Vec3.sub p1.position p0.position)
        (Vec3.length sqrt (Vec3.sub p1.position p0.position))
      let l0 := c.restLength
      let w1 := p0.invMass
      let w2 := p1.invMass
      let wSum := w1 + w2
      if wSum < epsilon then .ok particles
      else do
        let alphaTerm ← checkedDiv compliance (dt * dt)
        let lambda ← checkedDiv (-(l - l0)) (wSum + alphaTerm)
        .ok (addPosition (addPosition particles c.p0 (Vec3.smul (lambda * w1) gradC1))
          c.p1 (Vec3.smul (lambda * w2) gradC2))
  | _, _ => .error .indexOutOfRange

/-- The loop over `constraints` (line 285), in declaration order. -/
def solveDistances (sqrt : K → K) (compliance dt : K) :
    List (Particle K) → List (DistanceConstraint K) → Except Fault (List (Particle K))
  | particles, [] => .ok particles
  | particles, c :: cs =>
    match solveDistance sqrt compliance dt particles c with
    | .ok particles1 => solveDistances sqrt compliance dt particles1 cs
    | .error e => .error e

/-- The vector `grad0` (line 324). -/
def grad0 (_p0 p1 p2 p3 : Vec3 K) : Vec3 K := Vec3.cross (Vec3.sub p2 p1) (Vec3.sub p3 p1)

/-- The vector `grad1` (line 325). -/
def grad1 (p0 _p1 p2 p3 : Vec3 K) : Vec3 K := Vec3.cross (Vec3.sub p3 p0) (Vec3.sub p2 p0)

/-- The vector `grad2` (line 326). -/
def grad2 (p0 p1 _p2 p3 : Vec3 K) : Vec3 K := Vec3.cross (Vec3.sub p0 p1) (Vec3.sub p3 p1)

/-- The vector `grad3` (line 327). -/
def grad3 (p0 p1 p2 _p3 : Vec3 K) : Vec3 K := Vec3.cross (Vec3.sub p1 p0) (Vec3.sub p2 p0)

/-- The volume-constraint block (lines 318-355) on particles 0 to 3. The local `complianceVol`
is the parameter `compliance`; `lambda` is computed before the test on `wSum`, as in the
source. -/
def solveVolume (compliance dt restVolume : K) (particles : List (Particle K)) :
    Except Fault (List (Particle K)) :=
  match particles[0]?, particles[1]?, particles[2]?, particles[3]? with
  | some p0, some p1, some p2, some p3 =>
    let g0 := grad0 p0.position p1.position p2.position p3.position
    let g1 := grad1 p0.position p1.position p2.position p3.position
    let g2 := grad2 p0.position p1.position p2.position p3.position
    let g3 := grad3 p0.position p1.position p2.position p3.position
    let currentVol := Vec3.dot (Vec3.sub p1.position p0.position)
      (Vec3.cross (Vec3.sub p2.position p0.position) (Vec3.sub p3.position p0.position)) / 6
    let C := currentVol - restVolume
    let wSum := p0.invMass * Vec3.dot g0 g0 + p1.invMass * Vec3.dot g1 g1 +
      p2.invMass * Vec3.dot g2 g2 + p3.invMass * Vec3.dot g3 g3
    do
      let alphaVol ← checkedDiv compliance (dt * dt)
      let lambda ← checkedDiv (-6 * C) (wSum + alphaVol)
      if |wSum| > epsilon then
        .ok (addPosition (addPosition (addPosition (addPosition particles
          0 (Vec3.smul (lambda * p0.invMass) g0))
          1 (Vec3.smul (lambda * p1.invMass) g1))
          2 (Vec3.smul (lambda * p2.invMass) g2))
          3 (Vec3.smul (lambda * p3.invMass) g3))
      else .ok particles
  | _, _, _, _ => .error .indexOutOfRange

/-- One pass of the solver loop body: all distance constraints, then the volume constraint. -/
def solverIteration (sqrt : K → K) (constraints : List (DistanceConstraint K))
    (restVolume dt : K) (particles : List (Particle K)) : Except Fault (List (Particle K)) :=
  match solveDistances sqrt complianceDist dt particles constraints with
  | .ok particles1 => solveVolume complianceVol dt restVolume particles1
  | .error e => .error e

/-- The loop `for (iter = 0; iter < solverIterations; ++iter)` (line 282). -/
def solverLoop (sqrt : K → K) (constraints : List (DistanceConstraint K))
    (restVolume dt : K) : Nat → List (Particle K) → Except Fault (List (Particle K))
  | 0, particles => .ok particles
  | n + 1, particles =>
    match solverIteration sqrt constraints restVolume dt particles with
    | .ok particles1 => solverLoop sqrt constraints restVolume dt n particles1
    | .error e => .error e

/-- The last loop (lines 360-363), over every particle:
`p.velocity = (p.position - p.previousPosition) / dt`. -/
def updateVelocities (dt : K) : List (Particle K) → Except Fault (List (Particle K))
  | [] => .ok []
  | p :: ps =>
    match checkedVecDiv (Vec3.sub p.position p.previousPosition) dt with
    | .ok velocity =>
      match updateVelocities dt ps with
      | .ok ps1 => .ok ({ p with velocity := velocity } :: ps1)
      | .error e => .error e
    | .error e => .error e

/-- One frame of the simulation (lines 258-363): predict, ground, solver iterations,
velocities. -/
def step (sqrt : K → K) (gravity : Vec3 K) (constraints : List (DistanceConstraint K))
    (restVolume dt : K) (particles : List (Particle K)) : Except Fault (List (Particle K)) :=
  match solverLoop sqrt constraints restVolume dt solverIterations
      (detectGround (predict gravity dt particles)) with
  | .ok particles1 => updateVelocities dt particles1
  | .error e => .error e

/-! ## Vocabulary of the statements -/

/-- The properties of the real square root that the proofs use. -/
def IsSqrt (sqrt : K → K) : Prop :=
  ∀ x : K, 0 ≤ x → 0 ≤ sqrt x ∧ sqrt x * sqrt x = x

/-- Every index used by the step exists: particles 0 to 3 for the volume constraint and both
ends of every distance constraint. -/
def WellFormed (constraints : List (DistanceConstraint K)) (particles : List (Particle K)) :
    Prop :=
  4 ≤ particles.length ∧
    ∀ c ∈ constraints, c.p0 < particles.length ∧ c.p1 < particles.length

/-- What constraint projection may do to a particle: only the position moves, and not even
that when the particle is pinned. -/
def Projected (p q : Particle K) : Prop :=
  q.previousPosition = p.previousPosition ∧ q.velocity = p.velocity ∧ q.invMass = p.invMass ∧
    (p.invMass = 0 → q.position = p.position)

/-- Two particle vectors of the same size related index by index. -/
def Pointwise (R : Particle K → Particle K → Prop) (ps qs : List (Particle K)) : Prop :=
  qs.length = ps.length ∧
    ∀ (i : Nat) (p q : Particle K), ps[i]? = some p → qs[i]? = some q → R p q

/-- The premises of rest-state stability: every edge at its rest length, the signed volume at
the rest volume, no velocity, nobody below the ground. -/
def AtRest (sqrt : K → K) (cs : List (DistanceConstraint K)) (restVolume : K)
    (ps : List (Particle K)) : Prop :=
  (∀ c ∈ cs, ∀ p0 p1 : Particle K, ps[c.p0]? = some p0 → ps[c.p1]? = some p1 →
    Vec3.length sqrt (Vec3.sub p0.position p1.position) = c.restLength) ∧
  restVolumeOf ps = .ok restVolume ∧
  (∀ p ∈ ps, p.velocity = Vec3.zero) ∧
  (∀ p ∈ ps, groundY ≤ p.position.y)

/-- The six edges that the `addConstraint` calls produce. -/
def tetrahedronEdges (sqrt : K → K) : List (DistanceConstraint K) :=
  [ ⟨0, 1, Vec3.length sqrt (Vec3.sub ⟨0, -(1 / 2), 0⟩ ⟨-(1 / 2), 1 / 2, 1 / 2⟩)⟩,
    ⟨0, 2, Vec3.length sqrt (Vec3.sub ⟨0, -(1 / 2), 0⟩ ⟨1 / 2, 1 / 2, 1 / 2⟩)⟩,
    ⟨0, 3, Vec3.length sqrt (Vec3.sub ⟨0, -(1 / 2), 0⟩ ⟨0, 1 / 2, -(1 / 2)⟩)⟩,
    ⟨1, 2, Vec3.length sqrt (Vec3.sub ⟨-(1 / 2), 1 / 2, 1 / 2⟩ ⟨1 / 2, 1 / 2, 1 / 2⟩)⟩,
    ⟨1, 3, Vec3.length sqrt (Vec3.sub ⟨-(1 / 2), 1 / 2, 1 / 2⟩ ⟨0, 1 / 2, -(1 / 2)⟩)⟩,
    ⟨2, 3, Vec3.length sqrt (Vec3.sub ⟨1 / 2, 1 / 2, 1 / 2⟩ ⟨0, 1 / 2, -(1 / 2)⟩)⟩ ]

/-- The initial particles after the prediction of the first frame with `dt = 1/60`. -/
def fallen : List (Particle K) :=
  [ ⟨⟨0, -(1 / 2) - 1 / 3600, 0⟩, ⟨0, -(1 / 2), 0⟩, ⟨0, -(1 / 60), 0⟩, 1⟩,
    ⟨⟨-(1 / 2), 1 / 2 - 1 / 3600, 1 / 2⟩, ⟨-(1 / 2), 1 / 2, 1 / 2⟩, ⟨0, -(1 / 60), 0⟩, 1⟩,
    ⟨⟨1 / 2, 1 / 2 - 1 / 3600, 1 / 2⟩, ⟨1 / 2, 1 / 2, 1 / 2⟩, ⟨0, -(1 / 60), 0⟩, 1⟩,
    ⟨⟨0, 1 / 2 - 1 / 3600, -(1 / 2)⟩, ⟨0, 1 / 2, -(1 / 2)⟩, ⟨0, -(1 / 60), 0⟩, 1⟩ ]

/-! ## Sample bodies used as concrete inputs -/

/-- A particle one half below the ground plane. -/
def belowGround : Particle ℚ := ⟨⟨1, -4, 2⟩, ⟨1, -3, 2⟩, ⟨0, -1, 0⟩, 1⟩

/-- A pinned particle and a free one two units apart, on an edge of rest length one. -/
def stretched : List (Particle K) :=
  [⟨⟨0, 0, 0⟩, ⟨0, 0, 0⟩, Vec3.zero, 0⟩, ⟨⟨2, 0, 0⟩, ⟨2, 0, 0⟩, Vec3.zero, 1⟩]

/-- The initial tetrahedron at rest: `previousPosition` equal to `position`. -/
def restTetrahedron : List (Particle K) :=
  [ ⟨⟨0, -(1 / 2), 0⟩, ⟨0, -(1 / 2), 0⟩, Vec3.zero, 1⟩,
    ⟨⟨-(1 / 2), 1 / 2, 1 / 2⟩, ⟨-(1 / 2), 1 / 2, 1 / 2⟩, Vec3.zero, 1⟩,
    ⟨⟨1 / 2, 1 / 2, 1 / 2⟩, ⟨1 / 2, 1 / 2, 1 / 2⟩, Vec3.zero, 1⟩,
    ⟨⟨0, 1 / 2, -(1 / 2)⟩, ⟨0, 1 / 2, -(1 / 2)⟩, Vec3.zero, 1⟩ ]

/-- The initial tetrahedron with particle 0 pinned. -/
def pinnedApex : List (Particle K) :=
  [ ⟨⟨0, -(1 / 2), 0⟩, ⟨0, -(1 / 2), 0⟩, Vec3.zero, 0⟩,
    ⟨⟨-(1 / 2), 1 / 2, 1 / 2⟩, ⟨-(1 / 2), 1 / 2, 1 / 2⟩, Vec3.zero, 1⟩,
    ⟨⟨1 / 2, 1 / 2, 1 / 2⟩, ⟨1 / 2, 1 / 2, 1 / 2⟩, Vec3.zero, 1⟩,
    ⟨⟨0, 1 / 2, -(1 / 2)⟩, ⟨0, 1 / 2, -(1 / 2)⟩, Vec3.zero, 1⟩ ]

/-- The initial tetrahedron with particle 0 pinned half a unit below the ground plane. -/
def pinnedBelowGround : List (Particle K) :=
  [ ⟨⟨0, -4, 0⟩, ⟨0, -4, 0⟩, Vec3.zero, 0⟩,
    ⟨⟨-(1 / 2), 1 / 2, 1 / 2⟩, ⟨-(1 / 2), 1 / 2, 1 / 2⟩, Vec3.zero, 1⟩,
    ⟨⟨1 / 2, 1 / 2, 1 / 2⟩, ⟨1 / 2, 1 / 2, 1 / 2⟩, Vec3.zero, 1⟩,
    ⟨⟨0, 1 / 2, -(1 / 2)⟩, ⟨0, 1 / 2, -(1 / 2)⟩, Vec3.zero, 1⟩ ]

/-- The tetrahedron with particle 0 pinned and its `previousPosition` as in the initialiser of
`main`, mirrored in y. -/
def staleApex : List (Particle K) :=
  [ ⟨⟨0, -(1 / 2), 0⟩, ⟨0, 1 / 2, 0⟩, Vec3.zero, 0⟩,
    ⟨⟨-(1 / 2), 1 / 2, 1 / 2⟩, ⟨-(1 / 2), 1 / 2, 1 / 2⟩, Vec3.zero, 1⟩,
    ⟨⟨1 / 2, 1 / 2, 1 / 2⟩, ⟨1 / 2, 1 / 2, 1 / 2⟩, Vec3.zero, 1⟩,
    ⟨⟨0, 1 / 2, -(1 / 2)⟩, ⟨0, 1 / 2, -(1 / 2)⟩, Vec3.zero, 1⟩ ]

end Defs

/-! ## Lemmas -/

section Plain

variable {K : Type}

theorem pointwise_refl {R : Particle K → Particle K → Prop} (hR : ∀ p, R p p)
    (ps : List (Particle K)) : Pointwise R ps ps :=
  ⟨rfl, fun i p q hp hq => by
    rw [hp] at hq
    cases hq
    exact hR p⟩

theorem pointwise_trans {R : Particle K → Particle K → Prop}
    (hR : ∀ p q r, R p q → R q r → R p r) {ps qs rs : List (Particle K)}
    (h1 : Pointwise R ps qs) (h2 : Pointwise R qs rs) : Pointwise R ps rs := by
  refine ⟨h2.1.trans h1.1, fun i p r hp hr => ?_⟩
  have hi : i < qs.length := by
    rw [h1.1]
    exact (List.getElem?_eq_some_iff.mp hp).1
  have hq : qs[i]? = some qs[i] := List.getElem?_eq_getElem hi
  exact hR p _ r (h1.2 i p _ hp hq) (h2.2 i _ r hq hr)

theorem bind_eq_ok {α β : Type} (x : Except Fault α) (f : α → Except Fault β) (b : β) :
    (x >>= f) = .ok b ↔ ∃ a, x = .ok a ∧ f a = .ok b := by
  cases x <;> simp [bind, Except.bind]

end Plain

section Lemmas

variable {K : Type} [LinearOrderedField K]

/-! ### Position updates and what they preserve -/

theorem length_addPosition (ps : List (Particle K)) (i : Nat) (v : Vec3 K) :
    (addPosition ps i v).length = ps.length := by
  induction ps generalizing i with
  | nil => simp [addPosition]
  | cons p ps ih => cases i <;> simp [addPosition, ih]

theorem getElem?_addPosition_self (ps : List (Particle K)) (i : Nat) (v : Vec3 K) :
    (addPosition ps i v)[i]? =
      (ps[i]?).map (fun p => { p with position := Vec3.add p.position v }) := by
  induction ps generalizing i with
  | nil => simp [addPosition]
  | cons p ps ih => cases i <;> simp [addPosition, ih]

theorem getElem?_addPosition_ne (ps : List (Particle K)) {i j : Nat} (h : i ≠ j) (v : Vec3 K) :
    (addPosition ps i v)[j]? = ps[j]? := by
  induction ps generalizing i j with
  | nil => simp [addPosition]
  | cons p ps ih =>
    cases i with
    | zero =>
      cases j with
      | zero => exact absurd rfl h
      | succ j => simp [addPosition]
    | succ i =>
      cases j with
      | zero => simp [addPosition]
      | succ j =>
        have hij : i ≠ j := fun e => h (congrArg (· + 1) e)
        simp [addPosition, ih hij]

theorem projected_self (p : Particle K) : Projected p p := ⟨rfl, rfl, rfl, fun _ => rfl⟩

theorem projected_step {p q r : Particle K} (h1 : Projected p q) (h2 : Projected q r) :
    Projected p r := by
  obtain ⟨a1, b1, c1, d1⟩ := h1
  obtain ⟨a2, b2, c2, d2⟩ := h2
  refine ⟨a2.trans a1, b2.trans b1, c2.trans c1, fun h => ?_⟩
  rw [d2 (c1.trans h), d1 h]

theorem pointwise_addPosition {R : Particle K → Particle K → Prop} (hrefl : ∀ p, R p p)
    (ps : List (Particle K)) (i : Nat) (v : Vec3 K)
    (hR : ∀ p, ps[i]? = some p → R p { p with position := Vec3.add p.position v }) :
    Pointwise R ps (addPosition ps i v) := by
  refine ⟨length_addPosition ps i v, fun j p q hp hq => ?_⟩
  by_cases hij : i = j
  · subst hij
    rw [getElem?_addPosition_self, hp] at hq
    simp only [Option.map_some'] at hq
    cases hq
    exact hR p hp
  · rw [getElem?_addPosition_ne ps hij, hp] at hq
    cases hq
    exact hrefl p

theorem projected_addPosition (ps : List (Particle K)) (i : Nat) (g : Vec3 K) (k w : K)
    (hw : ∀ p, ps[i]? = some p → p.invMass = w) :
    Pointwise Projected ps (addPosition ps i (Vec3.smul (k * w) g)) := by
  refine pointwise_addPosition projected_self ps i _ (fun p hp => ⟨rfl, rfl, rfl, fun h0 => ?_⟩)
  have hw0 : w = 0 := (hw p hp).symm.trans h0
  subst hw0
  ext <;> simp [Vec3.add, Vec3.smul]

theorem projected_trans {ps qs rs : List (Particle K)} (h1 : Pointwise Projected ps qs)
    (h2 : Pointwise Projected qs rs) : Pointwise Projected ps rs :=
  @pointwise_trans K Projected (fun _ _ _ hpq hqr => projected_step hpq hqr) ps qs rs h1 h2

theorem projected_refl (ps : List (Particle K)) : Pointwise Projected ps ps :=
  pointwise_refl (fun p => projected_self p) ps

theorem solveDistance_cases (sqrt : K → K) (compliance dt : K) (ps ps1 : List (Particle K))
    (c : DistanceConstraint K) (h : solveDistance sqrt compliance dt ps c = .ok ps1) :
    ∃ p0 p1, ps[c.p0]? = some p0 ∧ ps[c.p1]? = some p1 ∧
      (ps1 = ps ∨ ∃ k g0 g1, ps1 = addPosition (addPosition ps c.p0
        (Vec3.smul (k * p0.invMass) g0)) c.p1 (Vec3.smul (k * p1.invMass) g1)) := by
  unfold solveDistance at h
  split at h
  · rename_i p0 p1 h0 h1
    refine ⟨p0, p1, h0, h1, ?_⟩
    dsimp only at h
    split_ifs at h with hl hw
    · exact Or.inl (Except.ok.inj h).symm
    · simp only [bind_eq_ok] at h
      obtain ⟨g0, -, g1, -, h⟩ := h
      exact Or.inl (Except.ok.inj h).symm
    · simp only [bind_eq_ok] at h
      obtain ⟨g0, -, g1, -, a, -, k, -, h⟩ := h
      exact Or.inr ⟨k, g0, g1, (Except.ok.inj h).symm⟩
  · simp at h

theorem solveDistance_projected (sqrt : K → K) (compliance dt : K) (ps ps1 : List (Particle K))
    (c : DistanceConstraint K) (h : solveDistance sqrt compliance dt ps c = .ok ps1) :
    Pointwise Projected ps ps1 := by
  obtain ⟨p0, p1, h0, h1, h | ⟨k, g0, g1, h⟩⟩ := solveDistance_cases sqrt compliance dt ps ps1 c h
  · rw [h]; exact projected_refl ps
  · rw [h]
    have hA := projected_addPosition ps c.p0 g0 k p0.invMass
      (fun p hp => by rw [h0] at hp; cases hp; rfl)
    refine projected_trans hA
      (projected_addPosition _ c.p1 g1 k p1.invMass (fun q hq => ?_))
    exact (hA.2 c.p1 p1 q h1 hq).2.2.1

theorem solveDistances_projected (sqrt : K → K) (compliance dt : K)
    (cs : List (DistanceConstraint K)) (ps ps1 : List (Particle K))
    (h : solveDistances sqrt compliance dt ps cs = .ok ps1) : Pointwise Projected ps ps1 := by
  induction cs generalizing ps with
  | nil =>
    simp only [solveDistances, Except.ok.injEq] at h
    rw [← h]; exact projected_refl ps
  | cons c cs ih =>
    simp only [solveDistances] at h
    split at h
    · rename_i ps2 h2
      exact projected_trans (solveDistance_projected sqrt compliance dt ps ps2 c h2) (ih ps2 h)
    · simp at h

theorem solveVolume_cases (compliance dt restVolume : K) (ps ps1 : List (Particle K))
    (h : solveVolume compliance dt restVolume ps = .ok ps1) :
    ∃ p0 p1 p2 p3, ps[0]? = some p0 ∧ ps[1]? = some p1 ∧ ps[2]? = some p2 ∧ ps[3]? = some p3 ∧
      (ps1 = ps ∨ ∃ k g0 g1 g2 g3, ps1 = addPosition (addPosition (addPosition (addPosition ps
        0 (Vec3.smul (k * p0.invMass) g0)) 1 (Vec3.smul (k * p1.invMass) g1))
        2 (Vec3.smul (k * p2.invMass) g2)) 3 (Vec3.smul (k * p3.invMass) g3)) := by
  unfold solveVolume at h
  split at h
  · rename_i p0 p1 p2 p3 h0 h1 h2 h3
    refine ⟨p0, p1, p2, p3, h0, h1, h2, h3, ?_⟩
    dsimp only at h
    simp only [bind_eq_ok] at h
    obtain ⟨a, -, k, -, h⟩ := h
    split_ifs at h
    · exact Or.inr ⟨k, _, _, _, _, (Except.ok.inj h).symm⟩
    · exact Or.inl (Except.ok.inj h).symm
  · simp at h

theorem solveVolume_projected (compliance dt restVolume : K) (ps ps1 : List (Particle K))
    (h : solveVolume compliance dt restVolume ps = .ok ps1) : Pointwise Projected ps ps1 := by
  obtain ⟨p0, p1, p2, p3, h0, h1, h2, h3, h | ⟨k, g0, g1, g2, g3, h⟩⟩ :=
    solveVolume_cases compliance dt restVolume ps ps1 h
  · rw [h]; exact projected_refl ps
  · rw [h]
    have hA := projected_addPosition ps 0 g0 k p0.invMass
      (fun p hp => by rw [h0] at hp; cases hp; rfl)
    have hB := projected_trans hA (projected_addPosition _ 1 g1 k p1.invMass
      (fun q hq => (hA.2 1 p1 q h1 hq).2.2.1))
    have hC := projected_trans hB (projected_addPosition _ 2 g2 k p2.invMass
      (fun q hq => (hB.2 2 p2 q h2 hq).2.2.1))
    exact projected_trans hC (projected_addPosition _ 3 g3 k p3.invMass
      (fun q hq => (hC.2 3 p3 q h3 hq).2.2.1))

theorem solverIteration_projected (sqrt : K → K) (cs : List (DistanceConstraint K))
    (restVolume dt : K) (ps ps1 : List (Particle K))
    (h : solverIteration sqrt cs restVolume dt ps = .ok ps1) : Pointwise Projected ps ps1 := by
  unfold solverIteration at h
  split at h
  · rename_i ps2 h2
    exact projected_trans (solveDistances_projected sqrt _ dt cs ps ps2 h2)
      (solveVolume_projected _ dt restVolume ps2 ps1 h)
  · simp at h

theorem solverLoop_projected (sqrt : K → K) (cs : List (DistanceConstraint K))
    (restVolume dt : K) (n : Nat) (ps ps1 : List (Particle K))
    (h : solverLoop sqrt cs restVolume dt n ps = .ok ps1) : Pointwise Projected ps ps1 := by
  induction n generalizing ps with
  | zero =>
    simp only [solverLoop, Except.ok.injEq] at h
    rw [← h]; exact projected_refl ps
  | succ n ih =>
    simp only [solverLoop] at h
    split at h
    · rename_i ps2 h2
      exact projected_trans (solverIteration_projected sqrt cs restVolume dt ps ps2 h2) (ih ps2 h)
    · simp at h

/-! ### Equations for the solver blocks -/

theorem epsilon_pos : (0 : K) < epsilon := by
  unfold epsilon; positivity

theorem complianceDist_pos : (0 : K) < complianceDist := by
  unfold complianceDist; positivity

theorem complianceVol_pos : (0 : K) < complianceVol := by
  unfold complianceVol; positivity

theorem checkedDiv_ok (a : K) {b : K} (hb : b ≠ 0) : checkedDiv a b = .ok (a / b) := by
  simp [checkedDiv, hb]

theorem checkedVecDiv_ok (a : Vec3 K) {b : K} (hb : b ≠ 0) :
    checkedVecDiv a b = .ok (Vec3.sdiv a b) := by
  simp [checkedVecDiv, hb]

theorem Vec3.dot_sub_comm (a b : Vec3 K) :
    Vec3.dot (Vec3.sub b a) (Vec3.sub b a) = Vec3.dot (Vec3.sub a b) (Vec3.sub a b) := by
  simp only [Vec3.dot, Vec3.sub]; ring

theorem Vec3.length_sub_comm (sqrt : K → K) (a b : Vec3 K) :
    Vec3.length sqrt (Vec3.sub b a) = Vec3.length sqrt (Vec3.sub a b) := by
  simp only [Vec3.length, Vec3.dot_sub_comm]

theorem Vec3.dot_self_nonneg (a : Vec3 K) : 0 ≤ Vec3.dot a a := by
  unfold Vec3.dot
  nlinarith [mul_self_nonneg a.x, mul_self_nonneg a.y, mul_self_nonneg a.z]

theorem addPosition_smul_zero (ps : List (Particle K)) (i : Nat) (w : K) (g : Vec3 K) :
    addPosition ps i (Vec3.smul (0 * w) g) = ps := by
  induction ps generalizing i with
  | nil => rfl
  | cons p ps ih =>
    cases i with
    | zero =>
      have hp : Vec3.add p.position (Vec3.smul (0 * w) g) = p.position := by
        ext <;> simp [Vec3.add, Vec3.smul]
      simp only [addPosition, hp]
    | succ i => simp only [addPosition, ih]

theorem solveDistance_guard (sqrt : K → K) (compliance dt : K) (ps : List (Particle K))
    (c : DistanceConstraint K) (p0 p1 : Particle K)
    (h0 : ps[c.p0]? = some p0) (h1 : ps[c.p1]? = some p1)
    (h : Vec3.length sqrt (Vec3.sub p0.position p1.position) < epsilon ∨
      p0.invMass + p1.invMass < epsilon) :
    solveDistance sqrt compliance dt ps c = .ok ps := by
  unfold solveDistance
  rw [h0, h1]
  dsimp only
  by_cases hl : Vec3.length sqrt (Vec3.sub p0.position p1.position) < epsilon
  · rw [if_pos hl]
  · have hw : p0.invMass + p1.invMass < epsilon := h.resolve_left hl
    have hl0 : Vec3.length sqrt (Vec3.sub p0.position p1.position) ≠ 0 :=
      ne_of_gt (lt_of_lt_of_le epsilon_pos (not_lt.mp hl))
    have hl1 : Vec3.length sqrt (Vec3.sub p1.position p0.position) ≠ 0 := by
      rw [Vec3.length_sub_comm]; exact hl0
    rw [if_neg hl, checkedVecDiv_ok _ hl0, checkedVecDiv_ok _ hl1]
    simp [bind, Except.bind, hw]

theorem solveDistance_apply (sqrt : K → K) (compliance dt : K) (ps : List (Particle K))
    (c : DistanceConstraint K) (p0 p1 : Particle K)
    (h0 : ps[c.p0]? = some p0) (h1 : ps[c.p1]? = some p1)
    (hl : epsilon ≤ Vec3.length sqrt (Vec3.sub p0.position p1.position))
    (hw : epsilon ≤ p0.invMass + p1.invMass) (hdt : dt ≠ 0) (hc : 0 ≤ compliance) :
    solveDistance sqrt compliance dt ps c = .ok
      (addPosition (addPosition ps c.p0
        (Vec3.smul
          (-(Vec3.length sqrt (Vec3.sub p0.position p1.position) - c.restLength) /
            (p0.invMass + p1.invMass + compliance / (dt * dt)) * p0.invMass)
          (Vec3.sdiv (Vec3.sub p0.position p1.position)
            (Vec3.length sqrt (Vec3.sub p0.position p1.position)))))
        c.p1
        (Vec3.smul
          (-(Vec3.length sqrt (Vec3.sub p0.position p1.position) - c.restLength) /
            (p0.invMass + p1.invMass + compliance / (dt * dt)) * p1.invMass)
          (Vec3.sdiv (Vec3.sub p1.position p0.position)
            (Vec3.length sqrt (Vec3.sub p0.position p1.position))))) := by
  have hl0 : Vec3.length sqrt (Vec3.sub p0.position p1.position) ≠ 0 :=
    ne_of_gt (lt_of_lt_of_le epsilon_pos hl)
  have hl1 : Vec3.length sqrt (Vec3.sub p1.position p0.position) ≠ 0 := by
    rw [Vec3.length_sub_comm]; exact hl0
  have hdt2 : dt * dt ≠ 0 := mul_ne_zero hdt hdt
  have ha : 0 ≤ compliance / (dt * dt) := div_nonneg hc (mul_self_nonneg dt)
  have hden : p0.invMass + p1.invMass + compliance / (dt * dt) ≠ 0 :=
    ne_of_gt (lt_of_lt_of_le epsilon_pos (le_trans hw (le_add_of_nonneg_right ha)))
  unfold solveDistance
  rw [h0, h1]
  dsimp only
  rw [if_neg (not_lt.mpr hl), checkedVecDiv_ok _ hl0, checkedVecDiv_ok _ hl1]
  simp only [bind, Except.bind]
  rw [if_neg (not_lt.mpr hw), checkedDiv_ok _ hdt2]
  simp only [bind, Except.bind]
  rw [checkedDiv_ok _ hden, Vec3.length_sub_comm sqrt p0.position p1.position]

theorem solveDistance_total (sqrt : K → K) (compliance dt : K) (ps : List (Particle K))
    (c : DistanceConstraint K) (h0 : c.p0 < ps.length) (h1 : c.p1 < ps.length)
    (hdt : dt ≠ 0) (hc : 0 ≤ compliance) :
    ∃ ps1, solveDistance sqrt compliance dt ps c = .ok ps1 := by
  have e0 : ps[c.p0]? = some ps[c.p0] := List.getElem?_eq_getElem h0
  have e1 : ps[c.p1]? = some ps[c.p1] := List.getElem?_eq_getElem h1
  by_cases hl : Vec3.length sqrt (Vec3.sub ps[c.p0].position ps[c.p1].position) < epsilon
  · exact ⟨ps, solveDistance_guard sqrt compliance dt ps c _ _ e0 e1 (Or.inl hl)⟩
  · by_cases hw : ps[c.p0].invMass + ps[c.p1].invMass < epsilon
    · exact ⟨ps, solveDistance_guard sqrt compliance dt ps c _ _ e0 e1 (Or.inr hw)⟩
    · exact ⟨_, solveDistance_apply sqrt compliance dt ps c _ _ e0 e1 (not_lt.mp hl)
        (not_lt.mp hw) hdt hc⟩

theorem solveDistance_rest (sqrt : K → K) (compliance dt : K) (ps : List (Particle K))
    (c : DistanceConstraint K) (p0 p1 : Particle K)
    (h0 : ps[c.p0]? = some p0) (h1 : ps[c.p1]? = some p1)
    (hrest : Vec3.length sqrt (Vec3.sub p0.position p1.position) = c.restLength)
    (hdt : dt ≠ 0) (hc : 0 ≤ compliance) :
    solveDistance sqrt compliance dt ps c = .ok ps := by
  by_cases hl : Vec3.length sqrt (Vec3.sub p0.position p1.position) < epsilon
  · exact solveDistance_guard sqrt compliance dt ps c _ _ h0 h1 (Or.inl hl)
  · by_cases hw : p0.invMass + p1.invMass < epsilon
    · exact solveDistance_guard sqrt compliance dt ps c _ _ h0 h1 (Or.inr hw)
    · rw [solveDistance_apply sqrt compliance dt ps c _ _ h0 h1 (not_lt.mp hl)
        (not_lt.mp hw) hdt hc, hrest]
      simp only [sub_self, neg_zero, zero_div, addPosition_smul_zero]

theorem solveDistances_rest (sqrt : K → K) (compliance dt : K)
    (cs : List (DistanceConstraint K)) (ps : List (Particle K))
    (hrest : ∀ c ∈ cs, ∃ p0 p1, ps[c.p0]? = some p0 ∧ ps[c.p1]? = some p1 ∧
      Vec3.length sqrt (Vec3.sub p0.position p1.position) = c.restLength)
    (hdt : dt ≠ 0) (hc : 0 ≤ compliance) :
    solveDistances sqrt compliance dt ps cs = .ok ps := by
  induction cs with
  | nil => rfl
  | cons c cs ih =>
    obtain ⟨p0, p1, h0, h1, hr⟩ := hrest c (List.mem_cons_self c cs)
    simp only [solveDistances, solveDistance_rest sqrt compliance dt ps c p0 p1 h0 h1 hr hdt hc]
    exact ih (fun d hd => hrest d (List.mem_cons_of_mem c hd))

theorem solveDistances_total (sqrt : K → K) (compliance dt : K)
    (cs : List (DistanceConstraint K)) (ps : List (Particle K))
    (hidx : ∀ c ∈ cs, c.p0 < ps.length ∧ c.p1 < ps.length)
    (hdt : dt ≠ 0) (hc : 0 ≤ compliance) :
    ∃ ps1, solveDistances sqrt compliance dt ps cs = .ok ps1 := by
  induction cs generalizing ps with
  | nil => exact ⟨ps, rfl⟩
  | cons c cs ih =>
    obtain ⟨i0, i1⟩ := hidx c (List.mem_cons_self c cs)
    obtain ⟨ps2, h2⟩ := solveDistance_total sqrt compliance dt ps c i0 i1 hdt hc
    have hlen : ps2.length = ps.length := (solveDistance_projected sqrt compliance dt ps ps2 c h2).1
    obtain ⟨ps1, h1⟩ := ih ps2 (fun d hd => by
      rw [hlen]; exact hidx d (List.mem_cons_of_mem c hd))
    exact ⟨ps1, by simp only [solveDistances, h2, h1]⟩

/-- The sum `wSum` of the volume block. -/
theorem volume_wSum_nonneg (w0 w1 w2 w3 : K) (g0 g1 g2 g3 : Vec3 K)
    (h0 : 0 ≤ w0) (h1 : 0 ≤ w1) (h2 : 0 ≤ w2) (h3 : 0 ≤ w3) :
    0 ≤ w0 * Vec3.dot g0 g0 + w1 * Vec3.dot g1 g1 + w2 * Vec3.dot g2 g2 + w3 * Vec3.dot g3 g3 := by
  have a0 := mul_nonneg h0 (Vec3.dot_self_nonneg g0)
  have a1 := mul_nonneg h1 (Vec3.dot_self_nonneg g1)
  have a2 := mul_nonneg h2 (Vec3.dot_self_nonneg g2)
  have a3 := mul_nonneg h3 (Vec3.dot_self_nonneg g3)
  linarith

theorem solveVolume_apply (compliance dt restVolume : K) (ps : List (Particle K))
    (p0 p1 p2 p3 : Particle K)
    (h0 : ps[0]? = some p0) (h1 : ps[1]? = some p1) (h2 : ps[2]? = some p2)
    (h3 : ps[3]? = some p3)
    (hden : p0.invMass * Vec3.dot (grad0 p0.position p1.position p2.position p3.position)
          (grad0 p0.position p1.position p2.position p3.position) +
        p1.invMass * Vec3.dot (grad1 p0.position p1.position p2.position p3.position)
          (grad1 p0.position p1.position p2.position p3.position) +
        p2.invMass * Vec3.dot (grad2 p0.position p1.position p2.position p3.position)
          (grad2 p0.position p1.position p2.position p3.position) +
        p3.invMass * Vec3.dot (grad3 p0.position p1.position p2.position p3.position)
          (grad3 p0.position p1.position p2.position p3.position) +
        compliance / (dt * dt) ≠ 0)
    (hdt : dt ≠ 0) :
    ∃ k, k = -6 * (tripleProduct p0.position p1.position p2.position p3.position / 6
        - restVolume) /
        (p0.invMass * Vec3.dot (grad0 p0.position p1.position p2.position p3.position)
          (grad0 p0.position p1.position p2.position p3.position) +
        p1.invMass * Vec3.dot (grad1 p0.position p1.position p2.position p3.position)
          (grad1 p0.position p1.position p2.position p3.position) +
        p2.invMass * Vec3.dot (grad2 p0.position p1.position p2.position p3.position)
          (grad2 p0.position p1.position p2.position p3.position) +
        p3.invMass * Vec3.dot (grad3 p0.position p1.position p2.position p3.position)
          (grad3 p0.position p1.position p2.position p3.position) +
        compliance / (dt * dt)) ∧
      (solveVolume compliance dt restVolume ps = .ok ps ∨
       solveVolume compliance dt restVolume ps = .ok
        (addPosition (addPosition (addPosition (addPosition ps
          0 (Vec3.smul (k * p0.invMass) (grad0 p0.position p1.position p2.position p3.position)))
          1 (Vec3.smul (k * p1.invMass) (grad1 p0.position p1.position p2.position p3.position)))
          2 (Vec3.smul (k * p2.invMass) (grad2 p0.position p1.position p2.position p3.position)))
          3 (Vec3.smul (k * p3.invMass) (grad3 p0.position p1.position p2.position p3.position)))) := by
  refine ⟨_, rfl, ?_⟩
  have hdt2 : dt * dt ≠ 0 := mul_ne_zero hdt hdt
  unfold solveVolume
  rw [h0, h1, h2, h3]
  dsimp only
  rw [checkedDiv_ok _ hdt2]
  simp only [bind, Except.bind]
  rw [checkedDiv_ok _ hden]
  dsimp only
  split_ifs
  · exact Or.inr rfl
  · exact Or.inl rfl

theorem volume_den_ne_zero (compliance dt : K) (w0 w1 w2 w3 : K) (g0 g1 g2 g3 : Vec3 K)
    (h0 : 0 ≤ w0) (h1 : 0 ≤ w1) (h2 : 0 ≤ w2) (h3 : 0 ≤ w3) (hdt : dt ≠ 0)
    (hc : 0 < compliance) :
    0 < w0 * Vec3.dot g0 g0 + w1 * Vec3.dot g1 g1 + w2 * Vec3.dot g2 g2 + w3 * Vec3.dot g3 g3 +
      compliance / (dt * dt) := by
  have hw := volume_wSum_nonneg w0 w1 w2 w3 g0 g1 g2 g3 h0 h1 h2 h3
  have ha : 0 < compliance / (dt * dt) := div_pos hc (mul_self_pos.mpr hdt)
  linarith

theorem solveVolume_total (compliance dt restVolume : K) (ps : List (Particle K))
    (hlen : 4 ≤ ps.length) (hmass : ∀ p ∈ ps, 0 ≤ p.invMass) (hdt : dt ≠ 0)
    (hc : 0 < compliance) : ∃ ps1, solveVolume compliance dt restVolume ps = .ok ps1 := by
  have e0 : ps[0]? = some ps[0] := List.getElem?_eq_getElem (by omega)
  have e1 : ps[1]? = some ps[1] := List.getElem?_eq_getElem (by omega)
  have e2 : ps[2]? = some ps[2] := List.getElem?_eq_getElem (by omega)
  have e3 : ps[3]? = some ps[3] := List.getElem?_eq_getElem (by omega)
  have hden := volume_den_ne_zero compliance dt ps[0].invMass ps[1].invMass ps[2].invMass
    ps[3].invMass (grad0 ps[0].position ps[1].position ps[2].position ps[3].position)
    (grad1 ps[0].position ps[1].position ps[2].position ps[3].position)
    (grad2 ps[0].position ps[1].position ps[2].position ps[3].position)
    (grad3 ps[0].position ps[1].position ps[2].position ps[3].position)
    (hmass _ (List.getElem_mem _)) (hmass _ (List.getElem_mem _))
    (hmass _ (List.getElem_mem _)) (hmass _ (List.getElem_mem _)) hdt hc
  obtain ⟨k, -, h | h⟩ := solveVolume_apply compliance dt restVolume ps _ _ _ _ e0 e1 e2 e3
    (ne_of_gt hden) hdt
  · exact ⟨_, h⟩
  · exact ⟨_, h⟩

theorem solveVolume_rest (compliance dt restVolume : K) (ps : List (Particle K))
    (p0 p1 p2 p3 : Particle K)
    (h0 : ps[0]? = some p0) (h1 : ps[1]? = some p1) (h2 : ps[2]? = some p2)
    (h3 : ps[3]? = some p3)
    (hrest : tripleProduct p0.position p1.position p2.position p3.position / 6 = restVolume)
    (m0 : 0 ≤ p0.invMass) (m1 : 0 ≤ p1.invMass) (m2 : 0 ≤ p2.invMass) (m3 : 0 ≤ p3.invMass)
    (hdt : dt ≠ 0) (hc : 0 < compliance) :
    solveVolume compliance dt restVolume ps = .ok ps := by
  have hden := volume_den_ne_zero compliance dt p0.invMass p1.invMass p2.invMass
    p3.invMass (grad0 p0.position p1.position p2.position p3.position)
    (grad1 p0.position p1.position p2.position p3.position)
    (grad2 p0.position p1.position p2.position p3.position)
    (grad3 p0.position p1.position p2.position p3.position) m0 m1 m2 m3 hdt hc
  obtain ⟨k, hk, h | h⟩ := solveVolume_apply compliance dt restVolume ps _ _ _ _ h0 h1 h2 h3
    (ne_of_gt hden) hdt
  · exact h
  · rw [hrest, sub_self, mul_zero, zero_div] at hk
    rw [h, hk]
    simp only [addPosition_smul_zero]

/-! ### The three per-particle loops -/

theorem predictParticle_invMass (g : Vec3 K) (dt : K) (p : Particle K) :
    (predictParticle g dt p).invMass = p.invMass := by
  unfold predictParticle; split_ifs <;> rfl

theorem predictParticle_pinned (g : Vec3 K) (dt : K) (p : Particle K) (h : p.invMass = 0) :
    predictParticle g dt p = p := by
  unfold predictParticle; rw [if_pos h]

theorem predictParticle_free (g : Vec3 K) (dt : K) (p : Particle K) (h : p.invMass ≠ 0) :
    predictParticle g dt p =
      { p with
        velocity := Vec3.add p.velocity (Vec3.scale g dt)
        previousPosition := p.position
        position :=
          Vec3.add p.position (Vec3.scale (Vec3.add p.velocity (Vec3.scale g dt)) dt) } := by
  unfold predictParticle; rw [if_neg h]

theorem clampParticle_invMass (p : Particle K) : (clampParticle p).invMass = p.invMass := by
  unfold clampParticle; split_ifs <;> rfl

theorem clampParticle_previousPosition (p : Particle K) :
    (clampParticle p).previousPosition = p.previousPosition := by
  unfold clampParticle; split_ifs <;> rfl

theorem clampParticle_velocity (p : Particle K) : (clampParticle p).velocity = p.velocity := by
  unfold clampParticle; split_ifs <;> rfl

theorem clampParticle_x (p : Particle K) : (clampParticle p).position.x = p.position.x := by
  unfold clampParticle; split_ifs <;> rfl

theorem clampParticle_z (p : Particle K) : (clampParticle p).position.z = p.position.z := by
  unfold clampParticle; split_ifs <;> rfl

theorem clampParticle_y (p : Particle K) :
    (clampParticle p).position.y = max p.position.y groundY := by
  unfold clampParticle
  split_ifs with h
  · exact (max_eq_right (le_of_lt h)).symm
  · exact (max_eq_left (not_lt.mp h)).symm

theorem clampParticle_above (p : Particle K) (h : groundY ≤ p.position.y) :
    clampParticle p = p := by
  unfold clampParticle; rw [if_neg (not_lt.mpr h)]

theorem clampParticle_below (p : Particle K) (h : p.position.y < groundY) :
    clampParticle p = { p with position := { p.position with y := groundY } } := by
  unfold clampParticle; rw [if_pos h]

theorem clampParticle_idem (p : Particle K) : clampParticle (clampParticle p) = clampParticle p := by
  by_cases h : p.position.y < groundY
  · rw [clampParticle_below p h]
    exact clampParticle_above _ (le_refl _)
  · have e := clampParticle_above p (not_lt.mp h)
    rw [e, e]

/-- The assignment of the last loop. -/
theorem updateVelocities_cases (dt : K) (ps ps1 : List (Particle K))
    (h : updateVelocities dt ps = .ok ps1) :
    ps1 = ps.map (fun p =>
      { p with velocity := Vec3.sdiv (Vec3.sub p.position p.previousPosition) dt }) := by
  induction ps generalizing ps1 with
  | nil =>
    simp only [updateVelocities, Except.ok.injEq] at h
    rw [← h]; rfl
  | cons p ps ih =>
    by_cases hdt : dt = 0
    · simp [updateVelocities, checkedVecDiv, hdt] at h
    · rw [updateVelocities, checkedVecDiv_ok _ hdt] at h
      cases hps : updateVelocities dt ps with
      | error e => rw [hps] at h; simp at h
      | ok ps2 =>
        rw [hps] at h
        rw [← Except.ok.inj h, ih ps2 hps]
        rfl

theorem updateVelocities_eq (dt : K) (hdt : dt ≠ 0) (ps : List (Particle K)) :
    updateVelocities dt ps = .ok (ps.map (fun p =>
      { p with velocity := Vec3.sdiv (Vec3.sub p.position p.previousPosition) dt })) := by
  induction ps with
  | nil => rfl
  | cons p ps ih =>
    simp only [updateVelocities, checkedVecDiv_ok _ hdt, ih, List.map_cons]

theorem step_cases (sqrt : K → K) (g : Vec3 K) (cs : List (DistanceConstraint K))
    (restVolume dt : K) (ps ps1 : List (Particle K))
    (h : step sqrt g cs restVolume dt ps = .ok ps1) :
    ∃ ps2, solverLoop sqrt cs restVolume dt solverIterations
        (detectGround (predict g dt ps)) = .ok ps2 ∧
      ps1 = ps2.map (fun p =>
        { p with velocity := Vec3.sdiv (Vec3.sub p.position p.previousPosition) dt }) := by
  unfold step at h
  split at h
  · rename_i ps2 h2
    exact ⟨ps2, h2, updateVelocities_cases dt ps2 ps1 h⟩
  · simp at h

/-- What one successful step does to each particle, index by index. -/
theorem step_frame (sqrt : K → K) (g : Vec3 K) (cs : List (DistanceConstraint K))
    (restVolume dt : K) (ps ps1 : List (Particle K))
    (h : step sqrt g cs restVolume dt ps = .ok ps1) :
    ps1.length = ps.length ∧
      ∀ (i : Nat) (p q : Particle K), ps[i]? = some p → ps1[i]? = some q →
        q.invMass = p.invMass ∧
        q.velocity = Vec3.sdiv (Vec3.sub q.position q.previousPosition) dt ∧
        (p.invMass ≠ 0 → q.previousPosition = p.position) ∧
        (p.invMass = 0 →
          q.previousPosition = p.previousPosition ∧ q.position = (clampParticle p).position) := by
  obtain ⟨ps2, h2, rfl⟩ := step_cases sqrt g cs restVolume dt ps ps1 h
  have hP := solverLoop_projected sqrt cs restVolume dt solverIterations _ ps2 h2
  have hlen : ps2.length = ps.length := by
    rw [hP.1]; simp [detectGround, predict]
  refine ⟨by rw [List.length_map, hlen], fun i p q hp hq => ?_⟩
  rw [List.getElem?_map] at hq
  have hi : i < ps2.length := by rw [hlen]; exact (List.getElem?_eq_some_iff.mp hp).1
  have h2i : ps2[i]? = some ps2[i] := List.getElem?_eq_getElem hi
  rw [h2i] at hq
  simp only [Option.map_some', Option.some.injEq] at hq
  have hb : (detectGround (predict g dt ps))[i]? = some (clampParticle (predictParticle g dt p)) := by
    simp [detectGround, predict, List.getElem?_map, hp]
  obtain ⟨hprev, -, hmass, hpin⟩ := hP.2 i _ _ hb h2i
  rw [clampParticle_previousPosition] at hprev
  rw [clampParticle_invMass, predictParticle_invMass] at hmass hpin
  subst hq
  refine ⟨hmass, rfl, fun hne => ?_, fun h0 => ?_⟩
  · show ps2[i].previousPosition = p.position
    rw [hprev, predictParticle_free g dt p hne]
  · show ps2[i].previousPosition = p.previousPosition ∧
      ps2[i].position = (clampParticle p).position
    rw [hprev, hpin h0, predictParticle_pinned g dt p h0]
    exact ⟨rfl, rfl⟩

/-! ### The step produces a state -/

theorem mass_of_projected {ps qs : List (Particle K)} (h : Pointwise Projected ps qs)
    (hmass : ∀ p ∈ ps, 0 ≤ p.invMass) : ∀ q ∈ qs, 0 ≤ q.invMass := by
  intro q hq
  obtain ⟨i, hi, rfl⟩ := List.getElem_of_mem hq
  have hi2 : i < ps.length := by rw [← h.1]; exact hi
  have hpq := h.2 i ps[i] qs[i] (List.getElem?_eq_getElem hi2) (List.getElem?_eq_getElem hi)
  rw [hpq.2.2.1]
  exact hmass _ (List.getElem_mem _)

theorem solverIteration_total (sqrt : K → K) (cs : List (DistanceConstraint K))
    (restVolume dt : K) (ps : List (Particle K)) (hwf : WellFormed cs ps)
    (hmass : ∀ p ∈ ps, 0 ≤ p.invMass) (hdt : dt ≠ 0) :
    ∃ ps1, solverIteration sqrt cs restVolume dt ps = .ok ps1 := by
  obtain ⟨ps2, h2⟩ := solveDistances_total sqrt complianceDist dt cs ps hwf.2 hdt
    (le_of_lt complianceDist_pos)
  have hP := solveDistances_projected sqrt complianceDist dt cs ps ps2 h2
  obtain ⟨ps1, h1⟩ := solveVolume_total complianceVol dt restVolume ps2
    (by rw [hP.1]; exact hwf.1) (mass_of_projected hP hmass) hdt complianceVol_pos
  exact ⟨ps1, by simp only [solverIteration, h2, h1]⟩

theorem solverLoop_total (sqrt : K → K) (cs : List (DistanceConstraint K))
    (restVolume dt : K) (n : Nat) (ps : List (Particle K)) (hwf : WellFormed cs ps)
    (hmass : ∀ p ∈ ps, 0 ≤ p.invMass) (hdt : dt ≠ 0) :
    ∃ ps1, solverLoop sqrt cs restVolume dt n ps = .ok ps1 := by
  induction n generalizing ps with
  | zero => exact ⟨ps, rfl⟩
  | succ n ih =>
    obtain ⟨ps2, h2⟩ := solverIteration_total sqrt cs restVolume dt ps hwf hmass hdt
    have hP := solverIteration_projected sqrt cs restVolume dt ps ps2 h2
    have hwf2 : WellFormed cs ps2 := by
      unfold WellFormed at hwf ⊢
      rw [hP.1]; exact hwf
    obtain ⟨ps1, h1⟩ := ih ps2 hwf2 (mass_of_projected hP hmass)
    exact ⟨ps1, by simp only [solverLoop, h2, h1]⟩

theorem step_total (sqrt : K → K) (g : Vec3 K) (cs : List (DistanceConstraint K))
    (restVolume dt : K) (ps : List (Particle K)) (hwf : WellFormed cs ps)
    (hmass : ∀ p ∈ ps, 0 ≤ p.invMass) (hdt : dt ≠ 0) :
    ∃ ps1, step sqrt g cs restVolume dt ps = .ok ps1 := by
  have hwf2 : WellFormed cs (detectGround (predict g dt ps)) := by
    unfold WellFormed at hwf ⊢
    simpa [detectGround, predict] using hwf
  have hmass2 : ∀ p ∈ detectGround (predict g dt ps), 0 ≤ p.invMass := by
    intro p hp
    simp only [detectGround, predict, List.map_map, List.mem_map, Function.comp] at hp
    obtain ⟨q, hq, rfl⟩ := hp
    rw [clampParticle_invMass, predictParticle_invMass]
    exact hmass q hq
  obtain ⟨ps2, h2⟩ := solverLoop_total sqrt cs restVolume dt solverIterations _ hwf2 hmass2 hdt
  refine ⟨ps2.map (fun p =>
    { p with velocity := Vec3.sdiv (Vec3.sub p.position p.previousPosition) dt }), ?_⟩
  simp only [step, h2, updateVelocities_eq dt hdt]

/-! ### A zero time step -/

theorem solveVolume_zero_dt (compliance restVolume : K) (ps : List (Particle K))
    (hlen : 4 ≤ ps.length) :
    solveVolume compliance 0 restVolume ps = .error .divisionByZero := by
  have e0 : ps[0]? = some ps[0] := List.getElem?_eq_getElem (by omega)
  have e1 : ps[1]? = some ps[1] := List.getElem?_eq_getElem (by omega)
  have e2 : ps[2]? = some ps[2] := List.getElem?_eq_getElem (by omega)
  have e3 : ps[3]? = some ps[3] := List.getElem?_eq_getElem (by omega)
  unfold solveVolume
  rw [e0, e1, e2, e3]
  simp [checkedDiv, bind, Except.bind]

theorem solveDistance_zero_dt (sqrt : K → K) (compliance : K) (ps : List (Particle K))
    (c : DistanceConstraint K) (h0 : c.p0 < ps.length) (h1 : c.p1 < ps.length) :
    solveDistance sqrt compliance 0 ps c = .ok ps ∨
      solveDistance sqrt compliance 0 ps c = .error .divisionByZero := by
  have e0 : ps[c.p0]? = some ps[c.p0] := List.getElem?_eq_getElem h0
  have e1 : ps[c.p1]? = some ps[c.p1] := List.getElem?_eq_getElem h1
  by_cases hl : Vec3.length sqrt (Vec3.sub ps[c.p0].position ps[c.p1].position) < epsilon
  · exact Or.inl (solveDistance_guard sqrt compliance 0 ps c _ _ e0 e1 (Or.inl hl))
  · by_cases hw : ps[c.p0].invMass + ps[c.p1].invMass < epsilon
    · exact Or.inl (solveDistance_guard sqrt compliance 0 ps c _ _ e0 e1 (Or.inr hw))
    · right
      have hl0 : Vec3.length sqrt (Vec3.sub ps[c.p0].position ps[c.p1].position) ≠ 0 :=
        ne_of_gt (lt_of_lt_of_le epsilon_pos (not_lt.mp hl))
      have hl1 : Vec3.length sqrt (Vec3.sub ps[c.p1].position ps[c.p0].position) ≠ 0 := by
        rw [Vec3.length_sub_comm]; exact hl0
      unfold solveDistance
      rw [e0, e1]
      dsimp only
      rw [if_neg hl, checkedVecDiv_ok _ hl0, checkedVecDiv_ok _ hl1]
      simp [checkedDiv, bind, Except.bind, hw]

theorem solveDistances_zero_dt (sqrt : K → K) (compliance : K) (cs : List (DistanceConstraint K))
    (ps : List (Particle K)) (hidx : ∀ c ∈ cs, c.p0 < ps.length ∧ c.p1 < ps.length) :
    solveDistances sqrt compliance 0 ps cs = .ok ps ∨
      solveDistances sqrt compliance 0 ps cs = .error .divisionByZero := by
  induction cs with
  | nil => exact Or.inl rfl
  | cons c cs ih =>
    obtain ⟨i0, i1⟩ := hidx c (List.mem_cons_self c cs)
    rcases solveDistance_zero_dt sqrt compliance ps c i0 i1 with h | h
    · simp only [solveDistances, h]
      exact ih (fun d hd => hidx d (List.mem_cons_of_mem c hd))
    · right; simp only [solveDistances, h]

/-- With `dt = 0` the step of a well-formed body stops at a division by zero. -/
theorem step_zero_dt (sqrt : K → K) (g : Vec3 K) (cs : List (DistanceConstraint K))
    (restVolume : K) (ps : List (Particle K)) (hwf : WellFormed cs ps) :
    step sqrt g cs restVolume 0 ps = .error .divisionByZero := by
  have hwf2 : WellFormed cs (detectGround (predict g 0 ps)) := by
    unfold WellFormed at hwf ⊢
    simpa [detectGround, predict] using hwf
  have hit : solverIteration sqrt cs restVolume 0 (detectGround (predict g 0 ps)) =
      .error .divisionByZero := by
    rcases solveDistances_zero_dt sqrt complianceDist cs _ hwf2.2 with h | h
    · simp only [solverIteration, h, solveVolume_zero_dt complianceVol restVolume _ hwf2.1]
    · simp only [solverIteration, h]
  simp only [step, solverIterations, solverLoop, hit]

/-! ### A body at rest -/

theorem solverLoop_rest (sqrt : K → K) (cs : List (DistanceConstraint K))
    (restVolume dt : K) (n : Nat) (ps : List (Particle K))
    (hrest : ∀ c ∈ cs, ∃ p0 p1, ps[c.p0]? = some p0 ∧ ps[c.p1]? = some p1 ∧
      Vec3.length sqrt (Vec3.sub p0.position p1.position) = c.restLength)
    (hvol : ∃ p0 p1 p2 p3, ps[0]? = some p0 ∧ ps[1]? = some p1 ∧ ps[2]? = some p2 ∧
      ps[3]? = some p3 ∧
      tripleProduct p0.position p1.position p2.position p3.position / 6 = restVolume ∧
      0 ≤ p0.invMass ∧ 0 ≤ p1.invMass ∧ 0 ≤ p2.invMass ∧ 0 ≤ p3.invMass)
    (hdt : dt ≠ 0) : solverLoop sqrt cs restVolume dt n ps = .ok ps := by
  obtain ⟨p0, p1, p2, p3, h0, h1, h2, h3, hv, m0, m1, m2, m3⟩ := hvol
  have hit : solverIteration sqrt cs restVolume dt ps = .ok ps := by
    simp only [solverIteration,
      solveDistances_rest sqrt complianceDist dt cs ps hrest hdt (le_of_lt complianceDist_pos),
      solveVolume_rest complianceVol dt restVolume ps p0 p1 p2 p3 h0 h1 h2 h3 hv m0 m1 m2 m3
        hdt complianceVol_pos]
  induction n with
  | zero => rfl
  | succ n ih => simp only [solverLoop, hit, ih]

theorem restVolumeOf_cases (ps : List (Particle K)) (rv : K) (h : restVolumeOf ps = .ok rv) :
    ∃ p0 p1 p2 p3, ps[0]? = some p0 ∧ ps[1]? = some p1 ∧ ps[2]? = some p2 ∧ ps[3]? = some p3 ∧
      tripleProduct p0.position p1.position p2.position p3.position / 6 = rv := by
  unfold restVolumeOf at h
  split at h
  · rename_i p0 p1 p2 p3 h0 h1 h2 h3
    exact ⟨p0, p1, p2, p3, h0, h1, h2, h3, Except.ok.inj h⟩
  · simp at h

theorem solveDistances_rest_of_ok (sqrt : K → K) (compliance dt : K)
    (cs : List (DistanceConstraint K)) (ps ps1 : List (Particle K))
    (hrest : ∀ c ∈ cs, ∀ p0 p1 : Particle K, ps[c.p0]? = some p0 → ps[c.p1]? = some p1 →
      Vec3.length sqrt (Vec3.sub p0.position p1.position) = c.restLength)
    (hdt : dt ≠ 0) (hc : 0 ≤ compliance)
    (h : solveDistances sqrt compliance dt ps cs = .ok ps1) : ps1 = ps := by
  induction cs with
  | nil => exact (Except.ok.inj h).symm
  | cons c cs ih =>
    simp only [solveDistances] at h
    split at h
    · rename_i ps2 h2
      obtain ⟨p0, p1, h0, h1, -⟩ := solveDistance_cases sqrt compliance dt ps ps2 c h2
      have hr := solveDistance_rest sqrt compliance dt ps c p0 p1 h0 h1
        (hrest c (List.mem_cons_self c cs) p0 p1 h0 h1) hdt hc
      rw [hr] at h2
      cases h2
      exact ih (fun d hd => hrest d (List.mem_cons_of_mem c hd)) h
    · simp at h

theorem solveVolume_rest_of_ok (compliance dt restVolume : K) (ps ps1 : List (Particle K))
    (p0 p1 p2 p3 : Particle K)
    (h0 : ps[0]? = some p0) (h1 : ps[1]? = some p1) (h2 : ps[2]? = some p2)
    (h3 : ps[3]? = some p3)
    (hrest : tripleProduct p0.position p1.position p2.position p3.position / 6 = restVolume)
    (h : solveVolume compliance dt restVolume ps = .ok ps1) : ps1 = ps := by
  unfold solveVolume at h
  rw [h0, h1, h2, h3] at h
  dsimp only at h
  simp only [bind_eq_ok] at h
  obtain ⟨a, -, k, hk, h⟩ := h
  have hC : Vec3.dot (Vec3.sub p1.position p0.position)
      (Vec3.cross (Vec3.sub p2.position p0.position) (Vec3.sub p3.position p0.position)) / 6 -
      restVolume = 0 := sub_eq_zero.mpr hrest
  rw [hC, mul_zero] at hk
  have hk0 : k = 0 := by
    unfold checkedDiv at hk
    split_ifs at hk
    rw [zero_div] at hk
    exact (Except.ok.inj hk).symm
  subst hk0
  split_ifs at h
  · rw [← Except.ok.inj h]
    simp only [addPosition_smul_zero]
  · exact (Except.ok.inj h).symm

theorem solverLoop_rest_of_ok (sqrt : K → K) (cs : List (DistanceConstraint K))
    (restVolume dt : K) (n : Nat) (ps ps1 : List (Particle K))
    (hrest : ∀ c ∈ cs, ∀ p0 p1 : Particle K, ps[c.p0]? = some p0 → ps[c.p1]? = some p1 →
      Vec3.length sqrt (Vec3.sub p0.position p1.position) = c.restLength)
    (hvol : restVolumeOf ps = .ok restVolume) (hdt : dt ≠ 0)
    (h : solverLoop sqrt cs restVolume dt n ps = .ok ps1) : ps1 = ps := by
  obtain ⟨p0, p1, p2, p3, h0, h1, h2, h3, hv⟩ := restVolumeOf_cases ps restVolume hvol
  induction n with
  | zero => exact (Except.ok.inj h).symm
  | succ n ih =>
    simp only [solverLoop] at h
    split at h
    · rename_i ps2 hit
      have e2 : ps2 = ps := by
        unfold solverIteration at hit
        split at hit
        · rename_i ps3 hd
          have e3 := solveDistances_rest_of_ok sqrt complianceDist dt cs ps ps3 hrest hdt
            (le_of_lt complianceDist_pos) hd
          subst e3
          exact solveVolume_rest_of_ok complianceVol dt restVolume _ ps2 p0 p1 p2 p3 h0 h1 h2 h3
            hv hit
        · simp at hit
      subst e2
      exact ih h
    · simp at h

/-- Prediction and ground test on a particle at rest above the ground, without gravity. -/
theorem rest_particle (dt : K) (p : Particle K) (hv : p.velocity = Vec3.zero)
    (hy : groundY ≤ p.position.y) :
    (clampParticle (predictParticle Vec3.zero dt p)).position = p.position ∧
    (p.invMass ≠ 0 →
      (clampParticle (predictParticle Vec3.zero dt p)).previousPosition = p.position) := by
  have hpos : (predictParticle Vec3.zero dt p).position = p.position := by
    unfold predictParticle
    split_ifs
    · rfl
    · rw [hv]; ext <;> simp [Vec3.add, Vec3.scale, Vec3.zero]
  have hcl : clampParticle (predictParticle Vec3.zero dt p) = predictParticle Vec3.zero dt p :=
    clampParticle_above _ (by rw [hpos]; exact hy)
  rw [hcl]
  refine ⟨hpos, fun hne => ?_⟩
  rw [predictParticle_free _ _ _ hne]

/-! ### The square root and one distance update -/

theorem sqrt_unique {sqrt : K → K} (hs : IsSqrt sqrt) {a x : K} (ha : 0 ≤ a) (h : a * a = x) :
    sqrt x = a := by
  have hx : 0 ≤ x := by rw [← h]; exact mul_self_nonneg a
  obtain ⟨h1, h2⟩ := hs x hx
  exact (mul_self_inj h1 ha).mp (h2.trans h.symm)

theorem length_mul_self {sqrt : K → K} (hs : IsSqrt sqrt) (a : Vec3 K) :
    Vec3.length sqrt a * Vec3.length sqrt a = Vec3.dot a a :=
  (hs _ (Vec3.dot_self_nonneg a)).2

theorem length_sub_self {sqrt : K → K} (hs : IsSqrt sqrt) (a : Vec3 K) :
    Vec3.length sqrt (Vec3.sub a a) = 0 := by
  apply sqrt_unique hs (le_refl 0)
  simp [Vec3.dot, Vec3.sub]

/-- The new separation after the two position updates of the distance block is the old one
scaled by `1 + lambda * wSum / l`. -/
theorem projected_delta (a b : Vec3 K) (l lam w0 w1 : K) (hl : l ≠ 0) :
    Vec3.sub (Vec3.add a (Vec3.smul (lam * w0) (Vec3.sdiv (Vec3.sub a b) l)))
        (Vec3.add b (Vec3.smul (lam * w1) (Vec3.sdiv (Vec3.sub b a) l))) =
      Vec3.smul ((l + lam * (w0 + w1)) / l) (Vec3.sub a b) := by
  ext <;> simp only [Vec3.sub, Vec3.add, Vec3.smul, Vec3.sdiv] <;> field_simp <;> ring

theorem length_smul {sqrt : K → K} (hs : IsSqrt sqrt) (k : K) (a : Vec3 K) (hk : 0 ≤ k) :
    Vec3.length sqrt (Vec3.smul k a) = k * Vec3.length sqrt a := by
  apply sqrt_unique hs (mul_nonneg hk (hs _ (Vec3.dot_self_nonneg a)).1)
  have h := length_mul_self hs a
  simp only [Vec3.length] at h ⊢
  calc k * sqrt (Vec3.dot a a) * (k * sqrt (Vec3.dot a a))
      = k * k * (sqrt (Vec3.dot a a) * sqrt (Vec3.dot a a)) := by ring
    _ = k * k * Vec3.dot a a := by rw [h]
    _ = Vec3.dot (Vec3.smul k a) (Vec3.smul k a) := by
      simp only [Vec3.dot, Vec3.smul]; ring

/-- One distance-constraint update on an edge that passes both guards. -/
theorem solveDistance_distance (sqrt : K → K) (compliance dt : K) (ps : List (Particle K))
    (c : DistanceConstraint K) (p0 p1 : Particle K) (hs : IsSqrt sqrt)
    (h0 : ps[c.p0]? = some p0) (h1 : ps[c.p1]? = some p1)
    (hw : epsilon ≤ p0.invMass + p1.invMass)
    (hl : epsilon ≤ Vec3.length sqrt (Vec3.sub p0.position p1.position))
    (hr : 0 ≤ c.restLength) (hdt : dt ≠ 0) (hc : 0 ≤ compliance) :
    ∃ ps1 q0 q1, solveDistance sqrt compliance dt ps c = .ok ps1 ∧
      ps1[c.p0]? = some q0 ∧ ps1[c.p1]? = some q1 ∧
      Vec3.length sqrt (Vec3.sub q0.position q1.position) =
        (compliance / (dt * dt) * Vec3.length sqrt (Vec3.sub p0.position p1.position) +
          (p0.invMass + p1.invMass) * c.restLength) /
        (p0.invMass + p1.invMass + compliance / (dt * dt)) := by
  have hlpos : 0 < Vec3.length sqrt (Vec3.sub p0.position p1.position) :=
    lt_of_lt_of_le epsilon_pos hl
  have hne : c.p0 ≠ c.p1 := by
    intro e
    rw [e, h1] at h0
    cases h0
    rw [length_sub_self hs] at hlpos
    exact lt_irrefl _ hlpos
  have ha : 0 ≤ compliance / (dt * dt) := div_nonneg hc (mul_self_nonneg dt)
  have hwpos : 0 < p0.invMass + p1.invMass := lt_of_lt_of_le epsilon_pos hw
  have hden : 0 < p0.invMass + p1.invMass + compliance / (dt * dt) := by linarith
  have happ := solveDistance_apply sqrt compliance dt ps c p0 p1 h0 h1 hl hw hdt hc
  have hnum : 0 ≤ compliance / (dt * dt) *
      Vec3.length sqrt (Vec3.sub p0.position p1.position) +
      (p0.invMass + p1.invMass) * c.restLength :=
    add_nonneg (mul_nonneg ha (le_of_lt hlpos)) (mul_nonneg (le_of_lt hwpos) hr)
  generalize hl_eq : Vec3.length sqrt (Vec3.sub p0.position p1.position) = l at happ hlpos hnum ⊢
  obtain ⟨lam, hlam⟩ : ∃ lam, lam = -(l - c.restLength) /
      (p0.invMass + p1.invMass + compliance / (dt * dt)) := ⟨_, rfl⟩
  rw [← hlam] at happ
  have hk : (l + lam * (p0.invMass + p1.invMass)) / l * l =
      (compliance / (dt * dt) * l + (p0.invMass + p1.invMass) * c.restLength) /
        (p0.invMass + p1.invMass + compliance / (dt * dt)) := by
    rw [hlam]
    have hd := ne_of_gt hden
    have hl0 := ne_of_gt hlpos
    generalize compliance / (dt * dt) = alpha at hd ⊢
    generalize p0.invMass + p1.invMass = wSum at hd ⊢
    field_simp
    ring
  have hk0 : 0 ≤ (l + lam * (p0.invMass + p1.invMass)) / l := by
    have h2 := div_nonneg hnum (le_of_lt hden)
    rw [← hk] at h2
    exact nonneg_of_mul_nonneg_left h2 hlpos
  refine ⟨_, { p0 with position := Vec3.add p0.position (Vec3.smul (lam * p0.invMass)
      (Vec3.sdiv (Vec3.sub p0.position p1.position) l)) },
    { p1 with position := Vec3.add p1.position (Vec3.smul (lam * p1.invMass)
      (Vec3.sdiv (Vec3.sub p1.position p0.position) l)) }, happ, ?_, ?_, ?_⟩
  · rw [getElem?_addPosition_ne _ (Ne.symm hne), getElem?_addPosition_self, h0]
    rfl
  · rw [getElem?_addPosition_self, getElem?_addPosition_ne _ hne, h1]
    rfl
  · dsimp only
    rw [projected_delta _ _ _ _ _ _ (ne_of_gt hlpos), length_smul hs _ _ hk0, hl_eq, hk]

theorem isSqrt_real : IsSqrt Real.sqrt :=
  fun x hx => ⟨Real.sqrt_nonneg x, Real.mul_self_sqrt hx⟩

theorem stretched_length :
    Vec3.length Real.sqrt (Vec3.sub (⟨0, 0, 0⟩ : Vec3 ℝ) ⟨2, 0, 0⟩) = 2 := by
  have h : Vec3.dot (Vec3.sub (⟨0, 0, 0⟩ : Vec3 ℝ) ⟨2, 0, 0⟩)
      (Vec3.sub (⟨0, 0, 0⟩ : Vec3 ℝ) ⟨2, 0, 0⟩) = 2 * 2 := by
    norm_num [Vec3.dot, Vec3.sub]
  rw [Vec3.length, h]
  exact Real.sqrt_mul_self (by norm_num)

/-! ### The scene of `main` -/

theorem initialConstraints_eq (sqrt : K → K) :
    initialConstraints sqrt = .ok (tetrahedronEdges sqrt) := by
  simp [initialConstraints, addConstraint, initialParticles, tetrahedronEdges, bind, Except.bind]

theorem restVolumeOf_initial :
    restVolumeOf (initialParticles : List (Particle K)) = .ok (1 / 6) := by
  simp only [restVolumeOf, initialParticles, List.getElem?_cons_zero, List.getElem?_cons_succ,
    Vec3.dot, Vec3.sub, Vec3.cross]
  norm_num

theorem wellFormed_initial (sqrt : K → K) :
    WellFormed (tetrahedronEdges sqrt) (initialParticles : List (Particle K)) := by
  simp [WellFormed, tetrahedronEdges, initialParticles]

theorem predict_initial :
    detectGround (predict gravity (1 / 60) (initialParticles : List (Particle K))) = fallen := by
  have h1 : (1 : K) ≠ 0 := one_ne_zero
  simp only [detectGround, predict, initialParticles, fallen, List.map_cons, List.map_nil,
    predictParticle, h1, if_false, clampParticle, groundY, gravity, Vec3.add, Vec3.scale, Vec3.zero]
  norm_num

theorem fallen_edges (sqrt : K → K) (c : DistanceConstraint K) (hc : c ∈ tetrahedronEdges sqrt) :
    ∃ p0 p1, (fallen : List (Particle K))[c.p0]? = some p0 ∧ fallen[c.p1]? = some p1 ∧
      Vec3.length sqrt (Vec3.sub p0.position p1.position) = c.restLength := by
  simp only [tetrahedronEdges, List.mem_cons, List.mem_singleton, List.not_mem_nil,
    or_false] at hc
  rcases hc with rfl | rfl | rfl | rfl | rfl | rfl <;>
    refine ⟨_, _, rfl, rfl, ?_⟩ <;>
    norm_num [fallen, Vec3.length, Vec3.dot, Vec3.sub]

theorem fallen_solved (sqrt : K → K) :
    solverLoop sqrt (tetrahedronEdges sqrt) (1 / 6) (1 / 60) solverIterations
      (fallen : List (Particle K)) = .ok fallen := by
  apply solverLoop_rest sqrt _ _ _ _ _ (fallen_edges sqrt)
  · refine ⟨_, _, _, _, rfl, rfl, rfl, rfl, ?_, ?_, ?_, ?_, ?_⟩
    · norm_num [fallen, tripleProduct, Vec3.dot, Vec3.sub, Vec3.cross]
    all_goals exact zero_le_one
  · norm_num

theorem fallen_velocities :
    updateVelocities (1 / 60) (fallen : List (Particle K)) = .ok fallen := by
  rw [updateVelocities_eq _ (by norm_num)]
  simp only [fallen, List.map_cons, List.map_nil, Vec3.sdiv, Vec3.sub]
  norm_num

theorem restTetrahedron_edges (c : DistanceConstraint ℝ) (hc : c ∈ tetrahedronEdges Real.sqrt)
    (p0 p1 : Particle ℝ) (h0 : (restTetrahedron : List (Particle ℝ))[c.p0]? = some p0)
    (h1 : (restTetrahedron : List (Particle ℝ))[c.p1]? = some p1) :
    Vec3.length Real.sqrt (Vec3.sub p0.position p1.position) = c.restLength := by
  simp only [tetrahedronEdges, List.mem_cons, List.mem_singleton, List.not_mem_nil, or_false] at hc
  rcases hc with rfl | rfl | rfl | rfl | rfl | rfl <;>
    simp only [restTetrahedron, List.getElem?_cons_zero, List.getElem?_cons_succ,
      Option.some.injEq] at h0 h1 <;>
    subst h0 <;> subst h1 <;> rfl

theorem restVolumeOf_restTetrahedron : restVolumeOf (restTetrahedron : List (Particle ℝ)) = .ok (1 / 6) := by
  simp only [restVolumeOf, restTetrahedron, List.getElem?_cons_zero, List.getElem?_cons_succ,
    Vec3.dot, Vec3.sub, Vec3.cross]
  norm_num

theorem atRest_restTetrahedron :
    AtRest Real.sqrt (tetrahedronEdges Real.sqrt) (1 / 6) restTetrahedron :=
  ⟨restTetrahedron_edges, restVolumeOf_restTetrahedron, by simp [restTetrahedron],
    by norm_num [restTetrahedron, groundY]⟩

theorem atRest_staleApex : AtRest Real.sqrt (tetrahedronEdges Real.sqrt) (1 / 6) staleApex := by
  refine ⟨fun c hc p0 p1 h0 h1 => ?_, ?_, by simp [staleApex],
    by norm_num [staleApex, groundY]⟩
  · simp only [tetrahedronEdges, List.mem_cons, List.mem_singleton, List.not_mem_nil,
      or_false] at hc
    rcases hc with rfl | rfl | rfl | rfl | rfl | rfl <;>
      simp only [staleApex, List.getElem?_cons_zero, List.getElem?_cons_succ,
        Option.some.injEq] at h0 h1 <;>
      subst h0 <;> subst h1 <;> rfl
  · simp only [restVolumeOf, staleApex, List.getElem?_cons_zero, List.getElem?_cons_succ,
      Vec3.dot, Vec3.sub, Vec3.cross]
    norm_num

/-! ### The volume gradients -/

/-- The displacement derivative of the triple product along each particle. -/
theorem tripleProduct_derivatives (p0 p1 p2 p3 d : Vec3 K) :
    tripleProduct (Vec3.add p0 d) p1 p2 p3 - tripleProduct p0 p1 p2 p3 =
      -Vec3.dot (grad0 p0 p1 p2 p3) d ∧
    tripleProduct p0 (Vec3.add p1 d) p2 p3 - tripleProduct p0 p1 p2 p3 =
      -Vec3.dot (grad1 p0 p1 p2 p3) d ∧
    tripleProduct p0 p1 (Vec3.add p2 d) p3 - tripleProduct p0 p1 p2 p3 =
      Vec3.dot (grad2 p0 p1 p2 p3) d ∧
    tripleProduct p0 p1 p2 (Vec3.add p3 d) - tripleProduct p0 p1 p2 p3 =
      Vec3.dot (grad3 p0 p1 p2 p3) d := by
  refine ⟨?_, ?_, ?_, ?_⟩ <;>
    simp only [tripleProduct, grad0, grad1, grad2, grad3, Vec3.dot, Vec3.cross, Vec3.sub,
      Vec3.add] <;>
    ring

end Lemmas

/-! ## The claims -/

section Claims

variable {K : Type} [LinearOrderedField K]

/-- C1 (amended): over one full step a particle with inverse mass 0 keeps its inverse mass and
its x and z, and its y becomes the larger of y and `groundY`; so its position is unchanged
whenever it is not below the ground plane, whatever the gravity and the constraints it takes
part in. The step yields a state when the body is well formed, the inverse masses are
non-negative and `dt` is not zero. Nothing is said about the velocity. -/
theorem pinned_position (sqrt : K → K) (g : Vec3 K) (cs : List (DistanceConstraint K))
    (restVolume dt : K) (ps : List (Particle K)) :
    (∀ ps1, step sqrt g cs restVolume dt ps = .ok ps1 →
      ps1.length = ps.length ∧
      ∀ (i : Nat) (p q : Particle K), ps[i]? = some p → ps1[i]? = some q → p.invMass = 0 →
        q.invMass = 0 ∧ q.position.x = p.position.x ∧ q.position.z = p.position.z ∧
        q.position.y = max p.position.y groundY ∧
        (groundY ≤ p.position.y → q.position = p.position)) ∧
    (WellFormed cs ps → (∀ p ∈ ps, 0 ≤ p.invMass) → dt ≠ 0 →
      ∃ ps1, step sqrt g cs restVolume dt ps = .ok ps1) := by
  refine ⟨fun ps1 h => ?_, step_total sqrt g cs restVolume dt ps⟩
  obtain ⟨hlen, hfr⟩ := step_frame sqrt g cs restVolume dt ps ps1 h
  refine ⟨hlen, fun i p q hp hq h0 => ?_⟩
  obtain ⟨hm, -, -, hpin⟩ := hfr i p q hp hq
  obtain ⟨-, hpos⟩ := hpin h0
  refine ⟨hm.trans h0, ?_, ?_, ?_, fun hy => ?_⟩
  · rw [hpos, clampParticle_x]
  · rw [hpos, clampParticle_z]
  · rw [hpos, clampParticle_y]
  · rw [hpos, clampParticle_above p hy]

/-- C1 (witness): the tetrahedron of `main` with its particle 0 pinned, stepped with the
gravity, edges and rest volume of `main` and `dt = 1/60`: particle 0 stays at (0, -1/2, 0). -/
theorem pinned_position_witness :
    ∃ ps1 q, step Real.sqrt gravity (tetrahedronEdges Real.sqrt) (1 / 6) (1 / 60) pinnedApex
        = .ok ps1 ∧ ps1[0]? = some q ∧ q.position = ⟨0, -(1 / 2), 0⟩ := by
  have h := pinned_position Real.sqrt gravity (tetrahedronEdges Real.sqrt) (1 / 6) (1 / 60)
    pinnedApex
  obtain ⟨ps1, hs⟩ := h.2 (by simp [WellFormed, tetrahedronEdges, pinnedApex])
    (by simp [pinnedApex]) (by norm_num)
  obtain ⟨hlen, hq⟩ := h.1 ps1 hs
  have hi : 0 < ps1.length := by rw [hlen]; simp [pinnedApex]
  refine ⟨ps1, ps1[0], hs, List.getElem?_eq_getElem hi, ?_⟩
  exact (hq 0 ⟨⟨0, -(1 / 2), 0⟩, ⟨0, -(1 / 2), 0⟩, Vec3.zero, 0⟩ ps1[0] rfl
    (List.getElem?_eq_getElem hi) rfl).2.2.2.2 (by norm_num [groundY])

/-- C1 (counterexample): particle 0 pinned at (0, -4, 0), below the ground plane, with zero
velocity. After one step with the gravity, edges and rest volume of `main` and `dt = 1/60`
its position is (0, -7/2, 0) and its velocity is (0, 30, 0): neither is as before. -/
theorem pinned_particle_moves :
    ∃ ps1 p q, step Real.sqrt gravity (tetrahedronEdges Real.sqrt) (1 / 6) (1 / 60)
        pinnedBelowGround = .ok ps1 ∧
      (pinnedBelowGround : List (Particle ℝ))[0]? = some p ∧ ps1[0]? = some q ∧
      p.invMass = 0 ∧
      p.position = ⟨0, -4, 0⟩ ∧ q.position = ⟨0, -(7 / 2), 0⟩ ∧
      p.velocity = ⟨0, 0, 0⟩ ∧ q.velocity = ⟨0, 30, 0⟩ := by
  obtain ⟨ps1, hs⟩ := step_total Real.sqrt gravity (tetrahedronEdges Real.sqrt) (1 / 6) (1 / 60)
    pinnedBelowGround (by simp [WellFormed, tetrahedronEdges, pinnedBelowGround])
    (by simp [pinnedBelowGround]) (by norm_num)
  obtain ⟨hlen, hfr⟩ := step_frame Real.sqrt gravity (tetrahedronEdges Real.sqrt) (1 / 6)
    (1 / 60) pinnedBelowGround ps1 hs
  have hi : 0 < ps1.length := by rw [hlen]; simp [pinnedBelowGround]
  obtain ⟨-, hv, -, hpin⟩ := hfr 0 ⟨⟨0, -4, 0⟩, ⟨0, -4, 0⟩, Vec3.zero, 0⟩ ps1[0] rfl
    (List.getElem?_eq_getElem hi)
  obtain ⟨hprev, hpos⟩ := hpin rfl
  have hpos2 : ps1[0].position = ⟨0, -(7 / 2), 0⟩ := by
    rw [hpos]; norm_num [clampParticle, groundY]
  refine ⟨ps1, _, ps1[0], hs, rfl, List.getElem?_eq_getElem hi, rfl, rfl, hpos2, rfl, ?_⟩
  rw [hv, hprev, hpos2]
  norm_num [Vec3.sdiv, Vec3.sub]

/-- C2 (amended): rest-state stability for `dt ≠ 0`. For a body at rest (every edge at its
rest length, the signed volume at the rest volume, all velocities zero, nobody below the
ground) and zero gravity, every step that yields a state leaves every position unchanged and
gives zero velocity to every particle with nonzero inverse mass; and the step does yield a
state when the body is well formed and the inverse masses are non-negative. Nothing is said
about the velocity of a pinned particle. -/
theorem rest_state_stability (sqrt : K → K) (cs : List (DistanceConstraint K))
    (restVolume dt : K) (ps : List (Particle K)) (hdt : dt ≠ 0)
    (hrest : AtRest sqrt cs restVolume ps) :
    (∀ ps1, step sqrt Vec3.zero cs restVolume dt ps = .ok ps1 →
      ps1.length = ps.length ∧
      ∀ (i : Nat) (p q : Particle K), ps[i]? = some p → ps1[i]? = some q →
        q.position = p.position ∧ (p.invMass ≠ 0 → q.velocity = Vec3.zero)) ∧
    (WellFormed cs ps → (∀ p ∈ ps, 0 ≤ p.invMass) →
      ∃ ps1, step sqrt Vec3.zero cs restVolume dt ps = .ok ps1) := by
  obtain ⟨hlen, hvol, hvel, hground⟩ := hrest
  refine ⟨fun ps1 h => ?_,
    fun hwf hmass => step_total sqrt Vec3.zero cs restVolume dt ps hwf hmass hdt⟩
  have hget : ∀ (i : Nat) (p : Particle K), ps[i]? = some p →
      (detectGround (predict Vec3.zero dt ps))[i]? =
        some (clampParticle (predictParticle Vec3.zero dt p)) := by
    intro i p hp
    simp [detectGround, predict, List.getElem?_map, hp]
  have hinv : ∀ (i : Nat) (q : Particle K),
      (detectGround (predict Vec3.zero dt ps))[i]? = some q →
      ∃ p, ps[i]? = some p ∧ q.position = p.position := by
    intro i q hq
    have hi : i < ps.length := by
      have := (List.getElem?_eq_some_iff.mp hq).1
      simpa [detectGround, predict] using this
    have hp : ps[i]? = some ps[i] := List.getElem?_eq_getElem hi
    rw [hget i _ hp] at hq
    cases hq
    exact ⟨_, hp, (rest_particle dt _ (hvel _ (List.getElem?_mem hp))
      (hground _ (List.getElem?_mem hp))).1⟩
  obtain ⟨ps2, h2, rfl⟩ := step_cases sqrt Vec3.zero cs restVolume dt ps ps1 h
  have e2 : ps2 = detectGround (predict Vec3.zero dt ps) := by
    refine solverLoop_rest_of_ok sqrt cs restVolume dt solverIterations _ ps2 ?_ ?_ hdt h2
    · intro c hc q0 q1 hq0 hq1
      obtain ⟨p0, hp0, e0⟩ := hinv _ _ hq0
      obtain ⟨p1, hp1, e1⟩ := hinv _ _ hq1
      rw [e0, e1]
      exact hlen c hc p0 p1 hp0 hp1
    · obtain ⟨p0, p1, p2, p3, h0, h1, h2, h3, hv⟩ := restVolumeOf_cases ps restVolume hvol
      have r0 := (rest_particle dt p0 (hvel _ (List.getElem?_mem h0))
        (hground _ (List.getElem?_mem h0))).1
      have r1 := (rest_particle dt p1 (hvel _ (List.getElem?_mem h1))
        (hground _ (List.getElem?_mem h1))).1
      have r2 := (rest_particle dt p2 (hvel _ (List.getElem?_mem h2))
        (hground _ (List.getElem?_mem h2))).1
      have r3 := (rest_particle dt p3 (hvel _ (List.getElem?_mem h3))
        (hground _ (List.getElem?_mem h3))).1
      unfold restVolumeOf
      rw [hget 0 p0 h0, hget 1 p1 h1, hget 2 p2 h2, hget 3 p3 h3]
      dsimp only
      rw [r0, r1, r2, r3]
      exact congrArg Except.ok hv
  subst e2
  refine ⟨by simp [detectGround, predict], fun i p q hp hq => ?_⟩
  rw [List.getElem?_map, hget i p hp] at hq
  simp only [Option.map_some', Option.some.injEq] at hq
  subst hq
  obtain ⟨h1, h3⟩ := rest_particle dt p (hvel _ (List.getElem?_mem hp))
    (hground _ (List.getElem?_mem hp))
  refine ⟨h1, fun hne => ?_⟩
  show Vec3.sdiv (Vec3.sub _ _) dt = Vec3.zero
  rw [h1, h3 hne]
  ext <;> simp [Vec3.sdiv, Vec3.sub, Vec3.zero]

/-- C2 (witness): the tetrahedron of `main` at rest, with the edges and rest volume of `main`,
zero gravity and `dt = 1/60`: the step yields a state with every position unchanged and every
velocity of a free particle zero. -/
theorem rest_state_stability_witness :
    ∃ ps1, step Real.sqrt Vec3.zero (tetrahedronEdges Real.sqrt) (1 / 6) (1 / 60)
        restTetrahedron = .ok ps1 ∧ ps1.length = 4 ∧
      ∀ (i : Nat) (p q : Particle ℝ), (restTetrahedron : List (Particle ℝ))[i]? = some p →
        ps1[i]? = some q →
        q.position = p.position ∧ (p.invMass ≠ 0 → q.velocity = Vec3.zero) := by
  have h := rest_state_stability Real.sqrt (tetrahedronEdges Real.sqrt) (1 / 6) (1 / 60)
    restTetrahedron (by norm_num) atRest_restTetrahedron
  obtain ⟨ps1, hs⟩ := h.2 (by simp [WellFormed, tetrahedronEdges, restTetrahedron])
    (by simp [restTetrahedron])
  exact ⟨ps1, hs, h.1 ps1 hs⟩

/-- C2 (counterexample): two bodies at rest under zero gravity. With `dt = 0` the step of the
tetrahedron of `main` stops at a division by zero and yields no state. With `dt = 1` and
particle 0 pinned with the `previousPosition` that the initialiser of `main` gives it, the
step gives particle 0 the velocity (0, -1, 0) instead of zero. -/
theorem rest_state_counterexample :
    (AtRest Real.sqrt (tetrahedronEdges Real.sqrt) (1 / 6) restTetrahedron ∧
      step Real.sqrt Vec3.zero (tetrahedronEdges Real.sqrt) (1 / 6) 0 restTetrahedron =
        .error .divisionByZero) ∧
    (AtRest Real.sqrt (tetrahedronEdges Real.sqrt) (1 / 6) staleApex ∧
      ∃ ps1 q, step Real.sqrt Vec3.zero (tetrahedronEdges Real.sqrt) (1 / 6) 1 staleApex =
        .ok ps1 ∧ ps1[0]? = some q ∧ q.velocity = ⟨0, -1, 0⟩) := by
  refine ⟨⟨atRest_restTetrahedron, step_zero_dt _ _ _ _ _
    (by simp [WellFormed, tetrahedronEdges, restTetrahedron])⟩, atRest_staleApex, ?_⟩
  obtain ⟨ps1, hs⟩ := step_total Real.sqrt Vec3.zero (tetrahedronEdges Real.sqrt) (1 / 6) 1
    staleApex (by simp [WellFormed, tetrahedronEdges, staleApex]) (by simp [staleApex])
    one_ne_zero
  obtain ⟨hlen, hfr⟩ := step_frame _ _ _ _ _ _ ps1 hs
  have hi : 0 < ps1.length := by rw [hlen]; simp [staleApex]
  obtain ⟨-, hv, -, hpin⟩ := hfr 0 ⟨⟨0, -(1 / 2), 0⟩, ⟨0, 1 / 2, 0⟩, Vec3.zero, 0⟩ ps1[0] rfl
    (List.getElem?_eq_getElem hi)
  obtain ⟨hprev, hpos⟩ := hpin rfl
  refine ⟨ps1, ps1[0], hs, List.getElem?_eq_getElem hi, ?_⟩
  rw [hv, hprev, hpos]
  norm_num [clampParticle, groundY, Vec3.sdiv, Vec3.sub]

/-- C3: single-edge convergence. One distance update on an edge whose length `l` and whose
sum of inverse masses `wSum` are both at least `1e-6f`, with rest length at least 0 and
`dt ≠ 0`, yields a state in which the two particles are
`(alpha * l + wSum * restLength) / (wSum + alpha)` apart, `alpha = 0.03 / dt²`. The error
`distance - restLength` is the old error times `alpha / (wSum + alpha)`, a factor strictly
between 0 and 1: it does not grow and does not change sign. With compliance 0 the new
distance is exactly `restLength`. -/
theorem single_edge_convergence (sqrt : K → K) (dt : K) (ps : List (Particle K))
    (c : DistanceConstraint K) (p0 p1 : Particle K) (hs : IsSqrt sqrt)
    (h0 : ps[c.p0]? = some p0) (h1 : ps[c.p1]? = some p1)
    (hw : epsilon ≤ p0.invMass + p1.invMass)
    (hl : epsilon ≤ Vec3.length sqrt (Vec3.sub p0.position p1.position))
    (hr : 0 ≤ c.restLength) (hdt : dt ≠ 0) :
    (∃ ps1 q0 q1, solveDistance sqrt complianceDist dt ps c = .ok ps1 ∧
      ps1[c.p0]? = some q0 ∧ ps1[c.p1]? = some q1 ∧
      Vec3.length sqrt (Vec3.sub q0.position q1.position) =
        (complianceDist / (dt * dt) * Vec3.length sqrt (Vec3.sub p0.position p1.position) +
          (p0.invMass + p1.invMass) * c.restLength) /
        (p0.invMass + p1.invMass + complianceDist / (dt * dt)) ∧
      Vec3.length sqrt (Vec3.sub q0.position q1.position) - c.restLength =
        complianceDist / (dt * dt) / (p0.invMass + p1.invMass + complianceDist / (dt * dt)) *
          (Vec3.length sqrt (Vec3.sub p0.position p1.position) - c.restLength) ∧
      0 < complianceDist / (dt * dt) /
        (p0.invMass + p1.invMass + complianceDist / (dt * dt)) ∧
      complianceDist / (dt * dt) /
        (p0.invMass + p1.invMass + complianceDist / (dt * dt)) < 1 ∧
      |Vec3.length sqrt (Vec3.sub q0.position q1.position) - c.restLength| ≤
        |Vec3.length sqrt (Vec3.sub p0.position p1.position) - c.restLength| ∧
      (c.restLength ≤ Vec3.length sqrt (Vec3.sub p0.position p1.position) →
        c.restLength ≤ Vec3.length sqrt (Vec3.sub q0.position q1.position)) ∧
      (Vec3.length sqrt (Vec3.sub p0.position p1.position) ≤ c.restLength →
        Vec3.length sqrt (Vec3.sub q0.position q1.position) ≤ c.restLength)) ∧
    (∃ ps1 q0 q1, solveDistance sqrt 0 dt ps c = .ok ps1 ∧
      ps1[c.p0]? = some q0 ∧ ps1[c.p1]? = some q1 ∧
      Vec3.length sqrt (Vec3.sub q0.position q1.position) = c.restLength) := by
  have hwpos : 0 < p0.invMass + p1.invMass := lt_of_lt_of_le epsilon_pos hw
  constructor
  · obtain ⟨ps1, q0, q1, hs1, hq0, hq1, hd⟩ := solveDistance_distance sqrt complianceDist dt ps c
      p0 p1 hs h0 h1 hw hl hr hdt (le_of_lt complianceDist_pos)
    have ha : 0 < complianceDist / (dt * dt) :=
      div_pos complianceDist_pos (mul_self_pos.mpr hdt)
    have hden : 0 < p0.invMass + p1.invMass + complianceDist / (dt * dt) := by linarith
    have hf0 : 0 < complianceDist / (dt * dt) /
        (p0.invMass + p1.invMass + complianceDist / (dt * dt)) := div_pos ha hden
    have hf1 : complianceDist / (dt * dt) /
        (p0.invMass + p1.invMass + complianceDist / (dt * dt)) < 1 := by
      rw [div_lt_one hden]; linarith
    have herr : Vec3.length sqrt (Vec3.sub q0.position q1.position) - c.restLength =
        complianceDist / (dt * dt) / (p0.invMass + p1.invMass + complianceDist / (dt * dt)) *
          (Vec3.length sqrt (Vec3.sub p0.position p1.position) - c.restLength) := by
      rw [hd]
      have hd0 := ne_of_gt hden
      generalize complianceDist / (dt * dt) = alpha at hd0 ⊢
      field_simp
      ring
    refine ⟨ps1, q0, q1, hs1, hq0, hq1, hd, herr, hf0, hf1, ?_, fun h => ?_, fun h => ?_⟩
    · rw [herr, abs_mul, abs_of_pos hf0]
      exact mul_le_of_le_one_left (abs_nonneg _) (le_of_lt hf1)
    · have := mul_nonneg (le_of_lt hf0) (sub_nonneg.mpr h)
      linarith
    · have := mul_nonpos_of_nonneg_of_nonpos (le_of_lt hf0) (sub_nonpos.mpr h)
      linarith
  · obtain ⟨ps1, q0, q1, hs1, hq0, hq1, hd⟩ := solveDistance_distance sqrt 0 dt ps c
      p0 p1 hs h0 h1 hw hl hr hdt (le_refl 0)
    refine ⟨ps1, q0, q1, hs1, hq0, hq1, ?_⟩
    rw [hd, zero_div, zero_mul, zero_add, add_zero, mul_div_cancel_left₀ _ (ne_of_gt hwpos)]

/-- C3 (witness): a pinned particle at the origin and a free one at (2, 0, 0) on an edge of
rest length 1, `dt = 1`: after the update they are 106/103 apart, between 1 and 2. -/
theorem single_edge_convergence_witness :
    ∃ ps1 q0 q1, solveDistance Real.sqrt complianceDist 1 stretched ⟨0, 1, 1⟩ = .ok ps1 ∧
      ps1[0]? = some q0 ∧ ps1[1]? = some q1 ∧
      Vec3.length Real.sqrt (Vec3.sub q0.position q1.position) = 106 / 103 := by
  obtain ⟨ps1, q0, q1, hs1, hq0, hq1, hd, -⟩ :=
    (single_edge_convergence Real.sqrt 1 stretched ⟨0, 1, 1⟩
      ⟨⟨0, 0, 0⟩, ⟨0, 0, 0⟩, Vec3.zero, 0⟩ ⟨⟨2, 0, 0⟩, ⟨2, 0, 0⟩, Vec3.zero, 1⟩
      isSqrt_real rfl rfl (by norm_num [epsilon])
      (by rw [stretched_length]; norm_num [epsilon]) (by norm_num) one_ne_zero).1
  refine ⟨ps1, q0, q1, hs1, hq0, hq1, ?_⟩
  rw [hd, stretched_length]
  norm_num [complianceDist]

/-- C4: the concrete scenario. From the four initial particles of `main`, with the six edges
that `addConstraint` builds, the rest volume computed from those positions, the gravity
(0, -1, 0) and `dt = 1/60`, one step yields a state in which every particle has a strictly
smaller y than before. It holds whatever values the square root returns. -/
theorem first_frame_falls (sqrt : K → K) :
    ∃ cs restVolume ps1, initialConstraints sqrt = .ok cs ∧
      restVolumeOf (initialParticles : List (Particle K)) = .ok restVolume ∧
      step sqrt gravity cs restVolume (1 / 60) initialParticles = .ok ps1 ∧
      List.Forall₂ (fun p q => q.position.y < p.position.y) initialParticles ps1 := by
  refine ⟨tetrahedronEdges sqrt, 1 / 6, fallen, initialConstraints_eq sqrt, restVolumeOf_initial,
    ?_, ?_⟩
  · simp only [step, predict_initial, fallen_solved, fallen_velocities]
  · simp only [initialParticles, fallen]
    refine List.Forall₂.cons ?_ (List.Forall₂.cons ?_ (List.Forall₂.cons ?_
      (List.Forall₂.cons ?_ List.Forall₂.nil))) <;> norm_num

/-- C5: velocity reconciliation. For `dt ≠ 0`, after every step that yields a state, each
particle with nonzero inverse mass has `previousPosition` equal to its position before the
step and velocity equal to (position after - position before) / dt; and the step does yield a
state when the body is well formed and the inverse masses are non-negative. -/
theorem velocity_reconciliation (sqrt : K → K) (g : Vec3 K)
    (cs : List (DistanceConstraint K)) (restVolume dt : K) (ps : List (Particle K))
    (hdt : dt ≠ 0) :
    (∀ ps1, step sqrt g cs restVolume dt ps = .ok ps1 →
      ps1.length = ps.length ∧
      ∀ (i : Nat) (p q : Particle K), ps[i]? = some p → ps1[i]? = some q → p.invMass ≠ 0 →
        q.previousPosition = p.position ∧
        q.velocity = Vec3.sdiv (Vec3.sub q.position p.position) dt) ∧
    (WellFormed cs ps → (∀ p ∈ ps, 0 ≤ p.invMass) →
      ∃ ps1, step sqrt g cs restVolume dt ps = .ok ps1) := by
  refine ⟨fun ps1 h => ?_, fun hwf hmass => step_total sqrt g cs restVolume dt ps hwf hmass hdt⟩
  obtain ⟨hlen, hfr⟩ := step_frame sqrt g cs restVolume dt ps ps1 h
  refine ⟨hlen, fun i p q hp hq hne => ?_⟩
  obtain ⟨-, hv, hprev, -⟩ := hfr i p q hp hq
  have e := hprev hne
  rw [e] at hv
  exact ⟨e, hv⟩

/-- C5 (witness): the first frame of `main` with `dt = 1/60`. -/
theorem velocity_reconciliation_witness :
    ∃ ps1, step Real.sqrt gravity (tetrahedronEdges Real.sqrt) (1 / 6) (1 / 60)
        (initialParticles : List (Particle ℝ)) = .ok ps1 ∧
      ps1.length = 4 ∧
      ∀ (i : Nat) (p q : Particle ℝ), (initialParticles : List (Particle ℝ))[i]? = some p →
        ps1[i]? = some q → p.invMass ≠ 0 →
        q.previousPosition = p.position ∧
        q.velocity = Vec3.sdiv (Vec3.sub q.position p.position) (1 / 60) := by
  have h := velocity_reconciliation Real.sqrt gravity (tetrahedronEdges Real.sqrt) (1 / 6)
    (1 / 60) (initialParticles : List (Particle ℝ)) (by norm_num)
  obtain ⟨ps1, hs⟩ := h.2 (wellFormed_initial Real.sqrt)
    (by simp [initialParticles])
  exact ⟨ps1, hs, h.1 ps1 hs⟩

/-- C6: the ground clamp. The ground loop keeps the number of particles; for each particle it
leaves x, z, `previousPosition`, velocity and inverse mass alone, sets y to `groundY` when y
was below it and changes nothing at all otherwise, so that afterwards every y is at least
`groundY`; and running the loop twice gives what running it once gives. -/
theorem ground_clamp (ps : List (Particle K)) :
    (detectGround ps).length = ps.length ∧
    (∀ (i : Nat) (p q : Particle K), ps[i]? = some p → (detectGround ps)[i]? = some q →
      q.position.x = p.position.x ∧ q.position.z = p.position.z ∧
      q.previousPosition = p.previousPosition ∧ q.velocity = p.velocity ∧
      q.invMass = p.invMass ∧
      (p.position.y < groundY → q.position.y = groundY) ∧
      (groundY ≤ p.position.y → q = p) ∧
      groundY ≤ q.position.y) ∧
    detectGround (detectGround ps) = detectGround ps := by
  refine ⟨by simp [detectGround], fun i p q hp hq => ?_, ?_⟩
  · simp only [detectGround, List.getElem?_map, hp, Option.map_some', Option.some.injEq] at hq
    subst hq
    refine ⟨clampParticle_x p, clampParticle_z p, clampParticle_previousPosition p,
      clampParticle_velocity p, clampParticle_invMass p, fun h => ?_, clampParticle_above p, ?_⟩
    · rw [clampParticle_below p h]
    · rw [clampParticle_y]; exact le_max_right _ _
  · simp only [detectGround, List.map_map]
    exact List.map_congr_left (fun p _ => clampParticle_idem p)

/-- C6 (witness): a particle at y = -4 comes out at y = `groundY` with x and velocity kept. -/
theorem ground_clamp_witness :
    ∃ q : Particle ℚ, (detectGround [belowGround])[0]? = some q ∧
      q.position.y = groundY ∧ q.position.x = 1 ∧ q.velocity = ⟨0, -1, 0⟩ := by
  have hq : (detectGround [belowGround])[0]? = some (clampParticle belowGround) := by
    simp [detectGround]
  have h := (ground_clamp [belowGround]).2.1 0 belowGround _ rfl hq
  exact ⟨_, hq, h.2.2.2.2.2.1 (by norm_num [belowGround, groundY]), h.1, h.2.2.2.1⟩

/-- C8 (the code at the failing input): each of the four particles that `main` creates has
zero velocity and inverse mass 1, but its `previousPosition` is its position mirrored in y
and so differs from its position. -/
theorem initial_previousPosition_mirrored :
    List.Forall (fun p : Particle ℚ =>
      p.previousPosition = ⟨p.position.x, -p.position.y, p.position.z⟩ ∧
      p.previousPosition ≠ p.position ∧ p.velocity = Vec3.zero ∧ p.invMass = 1)
      initialParticles := by
  simp only [initialParticles, List.forall_cons, List.Forall]
  norm_num [Vec3.ext_iff]

/-- C9 (the code at the failing input): for the unit corner tetrahedron and the displacement
(1, 0, 0), moving particle 1 changes the triple product by 1 while `dot grad1 d` is -1, and
moving particle 0 changes it by -1 while `dot grad0 d` is 1. -/
theorem grad1_opposes_derivative :
    tripleProduct (⟨0, 0, 0⟩ : Vec3 ℚ) (Vec3.add ⟨1, 0, 0⟩ ⟨1, 0, 0⟩) ⟨0, 1, 0⟩ ⟨0, 0, 1⟩ -
        tripleProduct (⟨0, 0, 0⟩ : Vec3 ℚ) ⟨1, 0, 0⟩ ⟨0, 1, 0⟩ ⟨0, 0, 1⟩ = 1 ∧
      Vec3.dot (grad1 (⟨0, 0, 0⟩ : Vec3 ℚ) ⟨1, 0, 0⟩ ⟨0, 1, 0⟩ ⟨0, 0, 1⟩) ⟨1, 0, 0⟩ = -1 ∧
      tripleProduct (Vec3.add (⟨0, 0, 0⟩ : Vec3 ℚ) ⟨1, 0, 0⟩) ⟨1, 0, 0⟩ ⟨0, 1, 0⟩ ⟨0, 0, 1⟩ -
        tripleProduct (⟨0, 0, 0⟩ : Vec3 ℚ) ⟨1, 0, 0⟩ ⟨0, 1, 0⟩ ⟨0, 0, 1⟩ = -1 ∧
      Vec3.dot (grad0 (⟨0, 0, 0⟩ : Vec3 ℚ) ⟨1, 0, 0⟩ ⟨0, 1, 0⟩ ⟨0, 0, 1⟩) ⟨1, 0, 0⟩ = 1 := by
  norm_num [tripleProduct, grad0, grad1, Vec3.dot, Vec3.cross, Vec3.sub, Vec3.add]

end Claims

end SoftBody
